import Mathlib

/-!
Verification development for the student support assistant repository:
a shallow embedding, in Lean, of the document-ingestion and
context-selection pipeline (document processor, file storage, folder
synchronizer / change watcher, AI service) together with theorems about
the embedded operations.

Conventions of the embedding:
* JavaScript strings are Lean `String`s; the handful of string methods the
  code uses (`toLowerCase`, `indexOf`, `includes`, `substring`, `split`,
  `trim`) are defined below on `String.data` so that everything is
  executable and kernel-reducible.  The repository's data is ASCII, and the
  definitions match the JavaScript methods on ASCII input.
* `Date` values are modelled as natural numbers (milliseconds), passed in
  explicitly as `now` parameters where the code calls `new Date()` /
  `Date.now()`.
* External, library-provided primitives (the md5 checksum of a file's raw
  bytes, the pdf/docx text extractors) are deterministic functions of the
  file bytes; they enter the model as fields of an environment record and
  theorems quantify over them.
* Thrown-and-caught JavaScript exceptions are modelled with `Except`
  (a catch that merely logs becomes the branch that returns the state
  unchanged).
-/

namespace StudentSupport

/-! ## JavaScript string primitives -/

namespace JsString

/-- `String.prototype.toLowerCase`, on the ASCII range (`Char.toLower`
lowers exactly the ASCII uppercase letters, which matches the JavaScript
method on the repository's ASCII data). -/
def toLower (s : String) : String := ⟨s.data.map Char.toLower⟩

/-- Whether `pat` is a prefix of `l`, character by character. -/
def isPrefix : List Char → List Char → Bool
  | [], _ => true
  | _ :: _, [] => false
  | p :: ps, c :: cs => p == c && isPrefix ps cs

/-- First index at which the pattern occurs in the list, scanning left to
right; `none` when it never occurs. -/
def indexOfFrom (pat : List Char) : List Char → Option Nat
  | [] => if pat.isEmpty then some 0 else none
  | c :: cs =>
    if isPrefix pat (c :: cs) then some 0
    else (indexOfFrom pat cs).map (· + 1)

/-- `String.prototype.indexOf`: `none` models the JavaScript result −1. -/
def indexOf? (s pat : String) : Option Nat := indexOfFrom pat.data s.data

/-- `String.prototype.includes`. -/
def includes (s pat : String) : Bool := (indexOf? s pat).isSome

/-- `String.prototype.substring a b` for `a ≤ b` (every call site of the
code guarantees it), clamped to the string's length. -/
def substring (s : String) (a b : Nat) : String := ⟨(s.data.take b).drop a⟩

/-- `String.prototype.split` with a single-character separator, on char
lists: `split('\n')` style.  As in JavaScript, the empty string yields
`[[]]` and separators at the ends yield empty pieces. -/
def splitCharList (sep : Char) : List Char → List (List Char)
  | [] => [[]]
  | c :: cs =>
    let r := splitCharList sep cs
    if c == sep then [] :: r
    else
      match r with
      | [] => [[c]]
      | t :: ts => (c :: t) :: ts

/-- `String.prototype.split` with a single-character separator. -/
def splitOn (sep : Char) (s : String) : List String :=
  (splitCharList sep s.data).map fun l => (⟨l⟩ : String)

/-- The whitespace class of JavaScript's `\s`, restricted to the ASCII
whitespace characters that occur in the repository's data. -/
def isJsSpace (c : Char) : Bool :=
  c == ' ' || c == '\t' || c == '\n' || c == '\r' || c == '\x0b' || c == '\x0c'

/-- JavaScript's `\w` class: ASCII letters, digits and underscore. -/
def isWordChar (c : Char) : Bool := c.isAlphanum || c == '_'

/-- `String.prototype.trim`. -/
def trim (s : String) : String :=
  ⟨((s.data.dropWhile isJsSpace).reverse.dropWhile isJsSpace).reverse⟩

/-- Helper for `tokens`: `cur` holds the reversed current run of
non-whitespace characters. -/
def tokensAux : List Char → List Char → List (List Char)
  | [], cur => if cur.isEmpty then [] else [cur.reverse]
  | c :: cs, cur =>
    if isJsSpace c then
      if cur.isEmpty then tokensAux cs [] else cur.reverse :: tokensAux cs []
    else tokensAux cs (c :: cur)

/-- The tokens of `split(/\s+/)`: the maximal runs of non-whitespace
characters, in order.  (JavaScript's `split(/\s+/)` can additionally
produce empty tokens at the ends; the only caller filters tokens by a
positive length bound, so the empty tokens never matter and are dropped
here.) -/
def tokens (l : List Char) : List (List Char) := tokensAux l []

end JsString

open JsString

/-! ## Path helpers (the `path` node module, POSIX behaviour) -/

/-- `path.basename`: the component after the last `/`.  The repository only
passes plain file paths with no trailing separator. -/
def basename (p : String) : String :=
  ⟨(splitCharList '/' p.data).getLastD p.data⟩

/-- `path.extname`: the suffix of the base name from its last dot, or `""`
when the base name has no dot or starts with its only dot (dotfiles such as
`.md` have no extension). -/
def extname (p : String) : String :=
  let b := (basename p).data
  match (b.reverse).findIdx? (· == '.') with
  | none => ""
  | some i =>
    let j := b.length - 1 - i
    if j == 0 then "" else ⟨b.drop j⟩

/-! ## DocumentProcessor (src/lib/document-processor.ts) -/

namespace DocumentProcessor

/-- `DocumentProcessor.getSupportedMimeTypes`. -/
def getSupportedMimeTypes : List String :=
  [ "application/pdf"
  , "application/vnd.openxmlformats-officedocument.wordprocessingml.document"
  , "text/plain"
  , "text/markdown" ]

/-- `DocumentProcessor.isFileSupported`. -/
def isFileSupported (mimeType : String) : Bool :=
  getSupportedMimeTypes.contains mimeType

/-- The derived metadata object `{title?, keywords?}` (the `metadata` field
of a `Document`; the `author`/`subject` fields of the TypeScript interface
are never written by this code). -/
structure DocMetadata where
  title : Option String := none
  author : Option String := none
  subject : Option String := none
  keywords : Option (List String) := none
deriving DecidableEq, Repr

/-- One step of the `wordCounts` accumulation: JavaScript object property
update, i.e. bump an existing key in place or append a new one. -/
def bumpCount (counts : List (String × Nat)) (w : String) : List (String × Nat) :=
  match counts with
  | [] => [(w, 1)]
  | (k, n) :: rest => if k == w then (k, n + 1) :: rest else (k, n) :: bumpCount rest w

/-- The word list of `DocumentProcessor.extractKeywords`: lower-case the
content, replace every character matching `[^\w\s]` by a space, split on
whitespace, and keep the words of length 4 to 19 (`length > 3 && length < 20`). -/
def keywordWords (content : String) : List String :=
  let processed :=
    (content.data.map Char.toLower).map fun c =>
      if !isWordChar c && !isJsSpace c then ' ' else c
  ((tokens processed).map fun l => (⟨l⟩ : String)).filter fun word =>
    word.length > 3 && word.length < 20

/-- `DocumentProcessor.extractKeywords`.  `Object.entries` enumerates the
accumulated counts in first-occurrence order (integer-like keys would be
fronted by JavaScript, which only permutes entries and never affects the
properties proved below); `Array.prototype.sort` with the comparator
`(a, b) => b[1] - a[1]` is the stable descending sort by count, modelled by
the stable `insertionSort`. -/
def extractKeywords (content : String) : List String :=
  let wordCounts := (keywordWords content).foldl bumpCount []
  (((List.insertionSort (fun a b => b.2 ≤ a.2)
      (wordCounts.filter fun e => e.2 ≥ 3)).take 10).map Prod.fst)

/-- The `filename.replace(/[-_]/g, ' ')` fallback title of
`DocumentProcessor.extractMetadata`: the base name without its extension,
separators replaced by spaces. -/
def normalizedFilename (filePath : String) : String :=
  let base := basename filePath
  let ext := extname filePath
  let name : String := ⟨base.data.take (base.length - ext.length)⟩
  ⟨name.data.map fun c => if c == '-' || c == '_' then ' ' else c⟩

/-- `DocumentProcessor.extractMetadata`. -/
def extractMetadata (filePath content : String) : DocMetadata :=
  let lines := (splitOn '\n' content).filter fun line => trim line != ""
  let potentialTitle := lines.head?.map trim
  let title :=
    match potentialTitle with
    | some t => if t.length < 100 then t else normalizedFilename filePath
    | none => normalizedFilename filePath
  { title := some title, keywords := some (extractKeywords content) }

end DocumentProcessor

/-! ## Data model (src/lib/types.ts) -/

open DocumentProcessor in
/-- The `Document` interface.  `_id` is the opaque string produced by
`generateId()` (modelled as the decimal rendering of a per-store counter);
`Date` fields are `Nat` timestamps. -/
structure Document where
  _id : String := ""
  assistantId : String := ""
  filename : String := ""
  originalFilename : String := ""
  filePath : String := ""
  fileSize : Nat := 0
  mimeType : String := ""
  content : String := ""
  metadata : DocMetadata := {}
  processed : Bool := false
  processedAt : Option Nat := none
  lastModified : Nat := 0
  checksum : String := ""
  amplifyFileId : Option String := none
deriving DecidableEq, Repr

open DocumentProcessor in
/-- `Partial<Document>`: each field optionally present.  Spreading
`{ ...doc, ...updates }` overrides exactly the present fields. -/
structure DocUpdate where
  _id : Option String := none
  assistantId : Option String := none
  filename : Option String := none
  originalFilename : Option String := none
  filePath : Option String := none
  fileSize : Option Nat := none
  mimeType : Option String := none
  content : Option String := none
  metadata : Option DocMetadata := none
  processed : Option Bool := none
  processedAt : Option (Option Nat) := none
  lastModified : Option Nat := none
  checksum : Option String := none
  amplifyFileId : Option (Option String) := none
deriving DecidableEq, Repr

/-- `{ ...d, ...u }` for a document and a partial document. -/
def mergeDoc (d : Document) (u : DocUpdate) : Document where
  _id := u._id.getD d._id
  assistantId := u.assistantId.getD d.assistantId
  filename := u.filename.getD d.filename
  originalFilename := u.originalFilename.getD d.originalFilename
  filePath := u.filePath.getD d.filePath
  fileSize := u.fileSize.getD d.fileSize
  mimeType := u.mimeType.getD d.mimeType
  content := u.content.getD d.content
  metadata := u.metadata.getD d.metadata
  processed := u.processed.getD d.processed
  processedAt := u.processedAt.getD d.processedAt
  lastModified := u.lastModified.getD d.lastModified
  checksum := u.checksum.getD d.checksum
  amplifyFileId := u.amplifyFileId.getD d.amplifyFileId

/-- The `Assistant` interface, restricted to the fields this development's
operations read or write (`slug`, `organizationId`, theme settings and the
like never appear in the verified code paths). -/
structure Assistant where
  _id : String := ""
  name : String := ""
  description : String := ""
  welcomeMessage : String := ""
  documentsFolder : String := ""
  isActive : Bool := true
  lastDocumentSync : Option Nat := none
  updatedAt : Nat := 0
deriving DecidableEq, Repr

/-- `Partial<Assistant>`, restricted likewise. -/
structure AssistantUpdate where
  name : Option String := none
  welcomeMessage : Option String := none
  isActive : Option Bool := none
  lastDocumentSync : Option (Option Nat) := none
deriving DecidableEq, Repr

/-- `{ ...a, ...u }` for an assistant and a partial assistant. -/
def mergeAssistant (a : Assistant) (u : AssistantUpdate) : Assistant :=
  { a with
    name := u.name.getD a.name
    welcomeMessage := u.welcomeMessage.getD a.welcomeMessage
    isActive := u.isActive.getD a.isActive
    lastDocumentSync := u.lastDocumentSync.getD a.lastDocumentSync }

/-- The persistent state behind `FileStorage`: the contents of
`assistants.json` and `documents.json`, plus the counter from which fresh
`_id`s are drawn (`generateId()` returns a fresh opaque string). -/
structure Store where
  assistants : List Assistant := []
  documents : List Document := []
  nextId : Nat := 0
deriving DecidableEq, Repr

/-! ## FileStorage (src/lib/file-storage.ts) -/

namespace FileStorage

/-- `FileStorage.getAssistantById`. -/
def getAssistantById (id : String) (st : Store) : Option Assistant :=
  st.assistants.find? fun a => a._id == id

/-- `FileStorage.updateAssistant`: merge the updates into the matching
assistant and stamp `updatedAt` with the current time; no match leaves the
store unchanged (the function returns `null`). -/
def updateAssistant (id : String) (updates : AssistantUpdate) (now : Nat)
    (st : Store) : Store :=
  match st.assistants.findIdx? (fun a => a._id == id) with
  | none => st
  | some index =>
    let a := st.assistants.getD index ({} : Assistant)
    let merged := { mergeAssistant a updates with updatedAt := now }
    { st with assistants := st.assistants.set index merged }

/-- `FileStorage.getDocumentsByAssistant`. -/
def getDocumentsByAssistant (assistantId : String) (st : Store) : List Document :=
  st.documents.filter fun d => d.assistantId == assistantId

/-- The `(assistantId, filePath)` repository key comparison used by
`updateDocument` and `deleteDocument`. -/
def docKeyMatch (assistantId filePath : String) (d : Document) : Bool :=
  d.assistantId == assistantId && d.filePath == filePath

/-- `FileStorage.createDocument`: append the record with a fresh `_id`. -/
def createDocument (documentData : Document) (st : Store) : Document × Store :=
  let newDocument := { documentData with _id := toString st.nextId }
  (newDocument,
   { st with documents := st.documents ++ [newDocument], nextId := st.nextId + 1 })

/-- `FileStorage.updateDocument`: upsert by the `(assistantId, filePath)`
key — merge into the first matching record, or create
`{ assistantId, filePath, ...updates }` when none matches (absent object
fields of the cast to `Omit<Document, '_id'>` are modelled by the
`Document` field defaults). -/
def updateDocument (assistantId filePath : String) (updates : DocUpdate)
    (st : Store) : Document × Store :=
  match st.documents.findIdx? (docKeyMatch assistantId filePath) with
  | none =>
    createDocument
      (mergeDoc { assistantId := assistantId, filePath := filePath } updates) st
  | some index =>
    let merged := mergeDoc (st.documents.getD index ({} : Document)) updates
    (merged, { st with documents := st.documents.set index merged })

/-- `FileStorage.deleteDocument`: drop every record matching the key;
report whether anything was dropped (nothing is rewritten otherwise). -/
def deleteDocument (assistantId filePath : String) (st : Store) : Bool × Store :=
  let filteredDocuments :=
    st.documents.filter fun d => !(docKeyMatch assistantId filePath d)
  if filteredDocuments.length == st.documents.length then (false, st)
  else (true, { st with documents := filteredDocuments })

end FileStorage

/-! ## FileMonitor (src/lib/file-monitor.ts) -/

namespace FileMonitor

open DocumentProcessor FileStorage

/-- The change kinds handled by `FileMonitor.handleFileChange`. -/
inductive ChangeType where
  | added
  | changed
deriving DecidableEq, Repr

/-- The result of `fs.statSync` on a path that exists. -/
structure FileStat where
  isFile : Bool
  bytes : String
  size : Nat
  mtime : Nat
deriving DecidableEq, Repr

/-- The external primitives the monitor calls: `generateChecksum` is the
md5 digest of the file's raw bytes (a fixed deterministic function of the
bytes); `extractText` is the pdf/docx/text extraction of
`DocumentProcessor.extractText`, a deterministic function of the file
bytes and media type that may fail (`ExtractionFailed`). -/
structure MonitorEnv where
  generateChecksum : String → String
  extractText : String → String → Except Unit String

/-- `FileMonitor.getMimeType`: extension-based media type lookup,
defaulting to `application/octet-stream`. -/
def getMimeType (filePath : String) : String :=
  let ext := toLower (extname filePath)
  if ext == ".pdf" then "application/pdf"
  else if ext == ".docx" then
    "application/vnd.openxmlformats-officedocument.wordprocessingml.document"
  else if ext == ".txt" then "text/plain"
  else if ext == ".md" then "text/markdown"
  else "application/octet-stream"

/-- `FileMonitor.handleFileChange`.  `stat` is the filesystem view
(`fs.statSync`, `none` when the path does not exist and the thrown error is
caught by the surrounding `try`).  The returned `Bool` records whether the
run reached the repository upsert (used to state what "successfully
processed" means); every early `return` yields the state unchanged with
`false`. -/
def handleFileChange (env : MonitorEnv) (stat : String → Option FileStat)
    (assistantId filePath : String) (changeType : ChangeType) (now : Nat)
    (st : Store) : Store × Bool :=
  match stat filePath with
  | none => (st, false)
  | some stats =>
    if !stats.isFile then (st, false)
    else
      let mimeType := getMimeType filePath
      if !isFileSupported mimeType then (st, false)
      else
        let checksum := env.generateChecksum stats.bytes
        let existingDocs := getDocumentsByAssistant assistantId st
        let existingDoc := existingDocs.find? fun doc =>
          doc.filePath == filePath && doc.checksum == checksum
        if existingDoc.isSome && changeType == ChangeType.changed then (st, false)
        else
          match env.extractText stats.bytes mimeType with
          | .error _ => (st, false)
          | .ok content =>
            let metadata := extractMetadata filePath content
            let documentData : DocUpdate :=
              { assistantId := some assistantId
                filename := some (basename filePath)
                originalFilename := some (basename filePath)
                filePath := some filePath
                fileSize := some stats.size
                mimeType := some mimeType
                content := some content
                metadata := some metadata
                processed := some true
                processedAt := some (some now)
                lastModified := some stats.mtime
                checksum := some checksum }
            let st1 := (updateDocument assistantId filePath documentData st).2
            let st2 := updateAssistant assistantId
              { lastDocumentSync := some (some now) } now st1
            (st2, true)

/-- `FileMonitor.handleFileRemoval`. -/
def handleFileRemoval (assistantId filePath : String) (st : Store) : Store :=
  (deleteDocument assistantId filePath st).2

/-- A directory tree, as the filesystem under a registered folder. -/
inductive FSEntry where
  | file (name : String) (bytes : String) (size : Nat) (mtime : Nat)
  | dir (name : String) (entries : List FSEntry)
deriving Repr

mutual

/-- The body of `FileMonitor.getAllFiles`'s loop for one directory entry:
push a regular file's full path, recurse into a sub-directory. -/
def getAllFilesEntry (basePath : String) : FSEntry → List String
  | .file name _ _ _ => [basePath ++ "/" ++ name]
  | .dir name entries => getAllFiles (basePath ++ "/" ++ name) entries

/-- `FileMonitor.getAllFiles`: recursive enumeration of the regular files
under a folder, sub-directories expanded in place (`readdirSync` order is
the order of the entry list). -/
def getAllFiles (basePath : String) : List FSEntry → List String
  | [] => []
  | e :: rest => getAllFilesEntry basePath e ++ getAllFiles basePath rest

end

mutual

/-- One entry's contribution to the `fs.statSync` view of the tree. -/
def fsStatsEntry (basePath : String) : FSEntry → List (String × FileStat)
  | .file name bytes size mtime => [(basePath ++ "/" ++ name, ⟨true, bytes, size, mtime⟩)]
  | .dir name entries =>
    (basePath ++ "/" ++ name, ⟨false, "", 0, 0⟩)
      :: fsStats (basePath ++ "/" ++ name) entries

/-- The `fs.statSync` view of the tree: every path under the folder with
its stat result (directories with `isFile = false`). -/
def fsStats (basePath : String) : List FSEntry → List (String × FileStat)
  | [] => []
  | e :: rest => fsStatsEntry basePath e ++ fsStats basePath rest

end

/-- Path lookup in a stat view. -/
def statOf (l : List (String × FileStat)) (p : String) : Option FileStat :=
  (l.find? fun e => e.1 == p).map (·.2)

/-- `FileMonitor.syncFolder`.  A missing folder throws (`Except.error`);
otherwise every enumerated file is fed through `handleFileChange` with
change type `added` and the counter is incremented — unconditionally,
because `handleFileChange` catches and logs its own errors and never
throws, so the `catch` inside the loop is unreachable. -/
def syncFolder (env : MonitorEnv) (assistantId basePath : String)
    (folder : Option (List FSEntry)) (now : Nat) (st : Store) :
    Except Unit (Nat × Store) :=
  match folder with
  | none => .error ()
  | some entries =>
    let stat := statOf (fsStats basePath entries)
    let files := getAllFiles basePath entries
    .ok (files.foldl
      (fun (acc : Nat × Store) filePath =>
        (acc.1 + 1, (handleFileChange env stat assistantId filePath .added now acc.2).1))
      (0, st))

/-- Specification instrument for the notion the spec calls "successful
upserts": the number of enumerated files whose `handleFileChange` run
reached the repository upsert (the `Bool` it returns). -/
def syncUpsertCount (env : MonitorEnv) (assistantId basePath : String)
    (entries : List FSEntry) (now : Nat) (st : Store) : Nat :=
  ((getAllFiles basePath entries).foldl
    (fun (acc : Nat × Store) filePath =>
      let r := handleFileChange env (statOf (fsStats basePath entries))
        assistantId filePath .added now acc.2
      (if r.2 then acc.1 + 1 else acc.1, r.1))
    (0, st)).1

end FileMonitor

/-! ## AIService (src/lib/ai-service.ts) -/

/-- The `Message` interface, restricted to the fields the verified code
paths read. -/
structure Message where
  id : String := ""
  role : String := ""
  content : String := ""
deriving DecidableEq, Repr

/-- The `Citation` interface.  `relevanceScore` is a rational (the code
only ever writes the literal `0.9` here). -/
structure Citation where
  documentId : String
  filename : String
  excerpt : String
  relevanceScore : ℚ
deriving DecidableEq, Repr

namespace AIService

open FileStorage

/-- The module-level mutable `AIService.amplifyFileCache`: an in-memory map
from a document's `_id` to its Amplify file id. -/
abbrev FileCache := List (String × String)

/-- `Map.prototype.get`. -/
def cacheGet (cache : FileCache) (key : String) : Option String :=
  (cache.find? fun e => e.1 == key).map (·.2)

/-- `Map.prototype.set`: overwrite an existing key in place or append. -/
def cacheSet (cache : FileCache) (key value : String) : FileCache :=
  match cache with
  | [] => [(key, value)]
  | (k, v) :: rest =>
    if k == key then (k, value) :: rest else (k, v) :: cacheSet rest key value

/-- `AIService.getAmplifyFileId`: look the document up in the in-memory
cache by `doc._id || ''` (`_id` is a plain string in the model, so the
`|| ''` fallback for a missing id is the identity). -/
def getAmplifyFileId (doc : Document) (cache : FileCache) : Option String :=
  cacheGet cache doc._id

/-- `AIService.storeAmplifyFileId`: record the Amplify file id for the
document in the in-memory cache — and nowhere else. -/
def storeAmplifyFileId (doc : Document) (fileId : String) (cache : FileCache) :
    FileCache :=
  cacheSet cache doc._id fileId

/-- The external collaborators of the service.  `upload` models
`AIService.uploadDocumentToAmplify`: `some fileId` when the two-step remote
upload succeeds, `none` when any step fails or times out (the function
catches every error and returns `null`).  `docBasedResponse` models
`AIService.generateDocumentBasedResponse`, the document-grounded answer
path taken when at least one file id is available; no claim constrains it,
so theorems quantify over it. -/
structure AIEnv where
  upload : Document → Option String
  docBasedResponse : String → Assistant → List Document → List Message → String

/-- The outcome of one `ensureDocsUploadedToAmplify` run: the collected
file ids, the updated in-memory cache, and — as a specification
instrument — the `_id`s of the documents for which
`uploadDocumentToAmplify` was actually invoked. -/
structure EnsureResult where
  fileIds : List String
  cache : FileCache
  attempted : List String
deriving DecidableEq, Repr

/-- The body of `ensureDocsUploadedToAmplify`'s loop for one document:
reuse the cached file id if one exists; otherwise attempt the upload,
collecting the id and caching it on success and simply skipping the
document on failure (the per-document `catch` keeps the batch going). -/
def ensureStep (env : AIEnv) (r : EnsureResult) (doc : Document) : EnsureResult :=
  match getAmplifyFileId doc r.cache with
  | some existingFileId =>
    { r with fileIds := r.fileIds ++ [existingFileId] }
  | none =>
    match env.upload doc with
    | some fileId =>
      { fileIds := r.fileIds ++ [fileId]
        cache := storeAmplifyFileId doc fileId r.cache
        attempted := r.attempted ++ [doc._id] }
    | none => { r with attempted := r.attempted ++ [doc._id] }

/-- `AIService.ensureDocsUploadedToAmplify`. -/
def ensureDocsUploadedToAmplify (env : AIEnv) (documents : List Document)
    (cache : FileCache) : EnsureResult :=
  documents.foldl (ensureStep env) { fileIds := [], cache := cache, attempted := [] }

/-- The process state the Amplify sync can touch: the persistent
`FileStorage` store and the module-level in-memory cache.  The body of
`ensureDocsUploadedToAmplify` performs no `FileStorage` call at all, so the
store component passes through unchanged; this wrapper makes that
observable. -/
structure AmplifyWorld where
  store : Store
  amplifyFileCache : FileCache
deriving DecidableEq, Repr

/-- `ensureDocsUploadedToAmplify` acting on the whole process state. -/
def ensureDocsUploadedToAmplifyW (env : AIEnv) (documents : List Document)
    (w : AmplifyWorld) : EnsureResult × AmplifyWorld :=
  let r := ensureDocsUploadedToAmplify env documents w.amplifyFileCache
  (r, { w with amplifyFileCache := r.cache })

/-- `AIService.generateAssistantSpecificErrorMessage`: the canned fallback
produced when no documents could be made available to the remote service. -/
def generateAssistantSpecificErrorMessage (assistant : Assistant)
    (userMessage : String) : String :=
  let assistantName := toLower assistant.name
  let contactInfo :=
    if includes assistantName "residential" || includes assistantName "housing"
        || includes assistantName "dorm" then
      "\n1. Contacting Residential Life directly for housing and dorm questions\n2. Visiting the Residential Life website for housing policies\n3. Speaking with your Resident Advisor (RA) or House Director"
    else if includes assistantName "financial" || includes assistantName "aid" then
      "\n1. Contacting the Office of Student Accounts directly for financial aid and refund questions\n2. Visiting the Financial Aid office for personalized assistance\n3. Checking your financial aid status online"
    else
      "\n1. Visiting the appropriate university office for your specific question\n2. Checking the official Vanderbilt student handbook online\n3. Contacting general student support services"
  "I'm currently experiencing technical difficulties connecting to my document system. I'm designed to provide information from official university policies and handbooks, but I'm having trouble accessing those documents right now.\n\nFor help with your question about \""
    ++ userMessage ++ "\", I recommend:\n" ++ contactInfo
    ++ "\n\nI apologize for the technical difficulties. Once my document system is working, I'll be able to provide you with specific information from the official university policies and procedures.\n\n"
    ++ (if assistant.welcomeMessage != "" then "\n" ++ assistant.welcomeMessage else "")

/-- `AIService.generateSimpleCitations`: one fixed-score citation per
document, capped at three. -/
def generateSimpleCitations (documents : List Document) : List Citation :=
  (documents.map fun doc =>
    { documentId := doc._id
      filename := doc.filename
      excerpt := "Official university information from "
        ++ (match doc.metadata.title with
            | some t => if t != "" then t else doc.filename
            | none => doc.filename)
      relevanceScore := (9 : ℚ) / 10 }).take 3

/-- What `AIService.generateResponse` resolves to. -/
structure GenResult where
  response : String
  citations : List Citation
  responseTime : Nat
deriving DecidableEq, Repr

/-- `AIService.generateResponse`.  A missing assistant throws (the
surrounding catch logs and rethrows, so the caller sees the error).
Otherwise the documents are synced to Amplify; with at least one file id
the document-based response path runs, and with none the assistant-specific
fallback message is produced.  `responseTime` is `Date.now() − startTime`,
passed in. -/
def generateResponse (env : AIEnv) (assistantId userMessage : String)
    (conversationHistory : List Message) (responseTime : Nat) (st : Store)
    (cache : FileCache) : Except String (GenResult × FileCache) :=
  match getAssistantById assistantId st with
  | none => .error "Assistant not found"
  | some assistant =>
    let allDocuments := getDocumentsByAssistant assistantId st
    let r := ensureDocsUploadedToAmplify env allDocuments cache
    let response :=
      if r.fileIds.length > 0 then
        env.docBasedResponse userMessage assistant allDocuments conversationHistory
      else
        generateAssistantSpecificErrorMessage assistant userMessage
    let citations := generateSimpleCitations allDocuments
    .ok ({ response := response, citations := citations, responseTime := responseTime },
         r.cache)

/-- The phrase list `extractQueryRelevantContent` searches for, by query
topic: the refund, financial-aid and housing buckets, else the query's own
words longer than 3 characters. -/
def targetPhrasesFor (query : String) : List String :=
  let queryLower := toLower query
  let refundPhrases := ["refund", "tuition refund", "withdrawal",
    "university policy for the refund"]
  let financialAidPhrases := ["financial aid", "scholarship", "grant", "loan", "fafsa"]
  let housingPhrases := ["housing", "residence hall", "residential", "dorm"]
  if refundPhrases.any fun phrase => includes queryLower phrase then
    ["university policy for the refund of tuition", "refunds of tuition",
     "withdrawal", "percentage refund"]
  else if financialAidPhrases.any fun phrase => includes queryLower phrase then
    ["financial aid", "scholarship", "grant", "fafsa"]
  else if housingPhrases.any fun phrase => includes queryLower phrase then
    ["residence hall", "housing", "residential"]
  else
    (splitOn ' ' queryLower).filter fun word => word.length > 3

/-- The "looks like actual content, not a table of contents" check applied
to a candidate section: no spaced dot-leader run, no literal
`table of contents`, more than 3 lines. -/
def sectionPasses (s : String) : Bool :=
  !includes s ". . . . . . . ."
    && !includes (toLower s) "table of contents"
    && (splitOn '\n' s).length > 3

/-- The loop body of `extractQueryRelevantContent`: locate the phrase's
first occurrence in the lower-cased document, slice the window of 1000
characters before to 4000 after it, and push it onto `bestSections` when it
passes the table-of-contents check. -/
def sectionStep (content : String) (acc : List String) (phrase : String) :
    List String :=
  match indexOf? (toLower content) phrase with
  | none => acc
  | some phraseIndex =>
    let start := phraseIndex - 1000
    let stop := min content.length (phraseIndex + 4000)
    let s := substring content start stop
    if sectionPasses s then acc ++ [s] else acc

/-- The `bestSections` accumulated by `extractQueryRelevantContent`. -/
def bestSectionsFor (content query : String) : List String :=
  (targetPhrasesFor query).foldl (sectionStep content) []

/-- `AIService.extractQueryRelevantContent`: classify the query into a
topic's phrase list (or fall back to its own significant words), extract a
window of 1000 characters before to 4000 after each phrase's first
occurrence, keep the windows that do not look like a table of contents, and
return the longest survivor (`""` when none survives; `reduce` keeps the
earliest of equal lengths). -/
def extractQueryRelevantContent (content query : String) : String :=
  match bestSectionsFor content query with
  | [] => ""
  | first :: rest =>
    rest.foldl (fun longest current =>
      if current.length > longest.length then current else longest) first

/-- `AIService.extractPolicyContent`, the marker loop: the first policy
marker whose surrounding window (500 before to 3000 after) exceeds 1000
characters; markers whose window is too short are passed over. -/
def policyMarkerLoop (content : String) : List String → Option String
  | [] => none
  | marker :: rest =>
    match indexOf? content marker with
    | none => policyMarkerLoop content rest
    | some markerIndex =>
      let s := substring content (markerIndex - 500)
        (min content.length (markerIndex + 3000))
      if s.length > 1000 then some s else policyMarkerLoop content rest

/-- `AIService.extractPolicyContent`.  The fixed-offset fallback slice
starts at `Math.floor(content.length * 0.6)`, which equals
`6 * content.length / 10` in exact arithmetic (the double rounding error of
`0.6` is below a half-ulp of the product for every length). -/
def extractPolicyContent (content : String) : String :=
  let policyMarkers := ["University policy",
    "Refunds of Tuition and Residence Hall Charges", "Financial Responsibility",
    "Enrollment and Financial Matters", "Administrative Policies"]
  match policyMarkerLoop content policyMarkers with
  | some s => s
  | none =>
    let middleStart := 6 * content.length / 10
    substring content middleStart (min content.length (middleStart + 4000))

/-- The per-document selection step of `AIService.buildEnhancedContext`:
use the query-relevant extraction, falling back to the policy-content
extraction when it produced nothing or fewer than 500 characters. -/
def docRelevantContent (content userQuery : String) : String :=
  let relevantContent := extractQueryRelevantContent content userQuery
  if relevantContent == "" || relevantContent.length < 500 then
    extractPolicyContent content
  else relevantContent

end AIService

/-! ## Specification predicates and concrete fixtures

Definitions used only to *state* properties of the embedded operations:
projections of the document store, the uniqueness invariant, the
"regular file at this path" predicate for directory trees, and the concrete
environments and inputs the closed theorems below evaluate on. -/

/-- The `(assistantId, filePath)` repository key of a document. -/
def docKey (d : Document) : String × String := (d.assistantId, d.filePath)

/-- Lookup in the `wordCounts` association list accumulated by
`extractKeywords` (property access on the JavaScript counts object). -/
def countsLookup (l : List (String × Nat)) (k : String) : Option Nat :=
  (l.find? fun e => e.1 == k).map (·.2)

/-- The invariant "at most one Document per `(assistantId, filePath)`". -/
def UniqueKeys (docs : List Document) : Prop := (docs.map docKey).Nodup

/-- The `(assistantId, filePath, checksum)` projection of a document: what
claim C1 compares between two sync runs. -/
def docProj (d : Document) : String × String × String :=
  (d.assistantId, d.filePath, d.checksum)

/-- Key comparison on projected documents, mirroring
`FileStorage.docKeyMatch`. -/
def projKeyMatch (assistantId filePath : String)
    (t : String × String × String) : Bool :=
  t.1 == assistantId && t.2.1 == filePath

/-- Recursive form of the effect of one `updateDocument` upsert on the
document list: merge into the first key match in place, else append the
new record.  Convenient for induction; the bridge lemma below shows
`updateDocument` computes exactly this. -/
def upsertDoc (assistantId filePath : String) (u : DocUpdate) (newDoc : Document) :
    List Document → List Document
  | [] => [newDoc]
  | d :: ds =>
    if FileStorage.docKeyMatch assistantId filePath d then mergeDoc d u :: ds
    else d :: upsertDoc assistantId filePath u newDoc ds

/-- The same replace-or-append shape on the
`(assistantId, filePath, checksum)` projection. -/
def upsertRec (assistantId filePath checksum : String) :
    List (String × String × String) → List (String × String × String)
  | [] => [(assistantId, filePath, checksum)]
  | t :: ts =>
    if projKeyMatch assistantId filePath t then (assistantId, filePath, checksum) :: ts
    else t :: upsertRec assistantId filePath checksum ts

namespace FileMonitor

/-- What a `handleFileChange` run with change type `added` will do to the
repository, as far as the store projection is concerned: `none` when the
file is skipped before the upsert (missing, not a regular file, unsupported
media type, failed extraction), `some checksum` when the pipeline reaches
the upsert.  Independent of the store and of the wall-clock time. -/
def addOutcome (env : MonitorEnv) (stat : String → Option FileStat)
    (filePath : String) : Option String :=
  match stat filePath with
  | none => none
  | some stats =>
    if !stats.isFile then none
    else
      let mimeType := getMimeType filePath
      if !DocumentProcessor.isFileSupported mimeType then none
      else
        match env.extractText stats.bytes mimeType with
        | .error _ => none
        | .ok _ => some (env.generateChecksum stats.bytes)

/-- The store projection's evolution under one synced file. -/
def projStep (env : MonitorEnv) (stat : String → Option FileStat)
    (assistantId : String) (l : List (String × String × String))
    (filePath : String) : List (String × String × String) :=
  match addOutcome env stat filePath with
  | none => l
  | some checksum => upsertRec assistantId filePath checksum l

/-- "A regular file of the tree lies at this path": the paths
`getAllFiles` is meant to enumerate. -/
inductive FileAt : String → List FSEntry → String → Prop
  | here (basePath name : String) (bytes : String) (size mtime : Nat)
      (rest : List FSEntry) :
      FileAt basePath (.file name bytes size mtime :: rest) (basePath ++ "/" ++ name)
  | inDir (basePath name : String) (entries rest : List FSEntry) (p : String) :
      FileAt (basePath ++ "/" ++ name) entries p →
      FileAt basePath (.dir name entries :: rest) p
  | inRest (basePath : String) (e : FSEntry) (rest : List FSEntry) (p : String) :
      FileAt basePath rest p → FileAt basePath (e :: rest) p

end FileMonitor

/-! ### Concrete fixtures for the closed theorems -/

/-- A concrete monitor environment: the checksum is the raw bytes, the
extraction returns the bytes as text (as the plain-text extractor does). -/
def fixMonitorEnv : FileMonitor.MonitorEnv :=
  { generateChecksum := fun bytes => bytes
    extractText := fun bytes _ => .ok bytes }

/-- A folder holding a single file whose extension (`.xyz`) maps to the
unsupported media type `application/octet-stream`. -/
def unsupportedOnlyFolder : List FileMonitor.FSEntry :=
  [.file "notes.xyz" "plain contents" 14 7]

/-- A folder holding a single hidden file (name starting with a dot) whose
extension `.md` maps to the supported media type `text/markdown`. -/
def hiddenFileFolder : List FileMonitor.FSEntry :=
  [.file ".hidden.md" "hidden markdown" 15 9]

/-- A synthetic table-of-contents document: dot-leader lines written with
contiguous dots, the only occurrence of any refund phrase sitting in the
line `Refunds of Tuition and Residence Hall Charges ........ 42`.  Longer
than 500 characters and more than 3 lines, with no spaced dot-leader
`. . . . . . . .` and no literal `table of contents`. -/
def tocOnlyDoc : String :=
  String.join (List.replicate 9
    "Campus Dining Options and Something Else ................ 17\n")
    ++ "Refunds of Tuition and Residence Hall Charges ........ 42\n"

/-- A concrete AI environment whose remote upload always fails. -/
def failingAIEnv : AIService.AIEnv :=
  { upload := fun _ => none
    docBasedResponse := fun _ _ _ _ => "" }

/-- A concrete AI environment whose remote upload always succeeds with the
file id `f1`. -/
def succeedingAIEnv : AIService.AIEnv :=
  { upload := fun _ => some "f1"
    docBasedResponse := fun _ _ _ _ => "" }

/-- A concrete stored document with no Amplify file id on its record. -/
def fixDoc : Document :=
  { _id := "7", assistantId := "a1", filename := "handbook.pdf"
    filePath := "/docs/handbook.pdf", checksum := "c0" }

/-- A concrete assistant. -/
def fixAssistant : Assistant :=
  { _id := "a1", name := "Financial Aid Helper", welcomeMessage := "Welcome!" }

/-- A concrete process state: one assistant, one stored document, empty
in-memory Amplify cache. -/
def fixWorld : AIService.AmplifyWorld :=
  { store := { assistants := [fixAssistant], documents := [fixDoc] }
    amplifyFileCache := [] }

/-- A concrete filesystem view with a single regular text file. -/
def fixStat : String → Option FileMonitor.FileStat := fun p =>
  if p == "/docs/a.txt" then some ⟨true, "alpha", 5, 3⟩ else none

/-- A store that already holds the document for `/docs/a.txt` with the
checksum of its current bytes (under `fixMonitorEnv`, the bytes
themselves). -/
def fixSyncedStore : Store :=
  { assistants := [fixAssistant]
    documents := [{ _id := "0", assistantId := "a1", filename := "a.txt"
                    filePath := "/docs/a.txt", checksum := "alpha" }]
    nextId := 1 }

/-- A folder with one plain-text file, for the idempotence witness. -/
def fixFolder : List FileMonitor.FSEntry := [.file "a.txt" "alpha" 5 3]

/-- The store produced by syncing `fixFolder` into the empty store at time
100 (checked by `rfl` below). -/
def fixRun1Store : Store :=
  { assistants := []
    documents := [{ _id := "0", assistantId := "a1", filename := "a.txt"
                    originalFilename := "a.txt", filePath := "/r/a.txt"
                    fileSize := 5, mimeType := "text/plain", content := "alpha"
                    metadata := { title := some "alpha", keywords := some [] }
                    processed := true, processedAt := some 100, lastModified := 3
                    checksum := "alpha" }]
    nextId := 1 }

/-- The store produced by syncing `fixFolder` a second time, at time 200:
only `processedAt` moves. -/
def fixRun2Store : Store :=
  { assistants := []
    documents := [{ _id := "0", assistantId := "a1", filename := "a.txt"
                    originalFilename := "a.txt", filePath := "/r/a.txt"
                    fileSize := 5, mimeType := "text/plain", content := "alpha"
                    metadata := { title := some "alpha", keywords := some [] }
                    processed := true, processedAt := some 200, lastModified := 3
                    checksum := "alpha" }]
    nextId := 1 }

/-! ## General list lemmas -/

theorem set_getElem?_self {α : Type _} :
    ∀ (l : List α) (i : Nat) (a : α), l[i]? = some a → l.set i a = l
  | [], i, a, h => by simp at h
  | x :: xs, 0, a, h => by
    simp only [List.getElem?_cons_zero, Option.some.injEq] at h
    simp [h]
  | x :: xs, i + 1, a, h => by
    simp only [List.getElem?_cons_succ] at h
    simp [List.set, set_getElem?_self xs i a h]

theorem filter_length_ne_iff {α : Type _} (p : α → Bool) (l : List α) :
    (l.filter p).length ≠ l.length ↔ ∃ a ∈ l, p a = false := by
  rw [Ne, List.filter_length_eq_length]
  constructor
  · intro h
    by_contra hc
    push_neg at hc
    exact h fun a ha => by
      cases hpa : p a with
      | true => rfl
      | false => exact absurd hpa (hc a ha)
  · rintro ⟨a, ha, hpa⟩ h
    rw [h a ha] at hpa
    cases hpa

/-! ## C10: deleteDocument -/

/-- C10: `FileStorage.deleteDocument` returns `true` exactly when some
stored document matches the `(assistantId, filePath)` key; when it returns
`true` the resulting store keeps precisely the non-matching records, and
when it returns `false` the store is left entirely unchanged. -/
theorem deleteDocument_spec (assistantId filePath : String) (st : Store) :
    ((FileStorage.deleteDocument assistantId filePath st).1 = true ↔
        ∃ d ∈ st.documents, d.assistantId = assistantId ∧ d.filePath = filePath) ∧
    (FileStorage.deleteDocument assistantId filePath st).2.documents =
        st.documents.filter (fun d => !FileStorage.docKeyMatch assistantId filePath d) ∧
    ((FileStorage.deleteDocument assistantId filePath st).1 = false →
        (FileStorage.deleteDocument assistantId filePath st).2 = st) := by
  unfold FileStorage.deleteDocument
  by_cases h : ((st.documents.filter
      (fun d => !FileStorage.docKeyMatch assistantId filePath d)).length
        == st.documents.length)
  · rw [if_pos h]
    rw [beq_iff_eq] at h
    have hall := List.filter_length_eq_length.mp h
    refine ⟨?_, ?_, fun _ => rfl⟩
    · simp only [Bool.false_eq_true, false_iff]
      rintro ⟨d, hd, h1, h2⟩
      have := hall d hd
      simp [FileStorage.docKeyMatch, h1, h2] at this
    · exact (List.filter_eq_self.mpr hall).symm
  · rw [if_neg h]
    rw [beq_iff_eq] at h
    obtain ⟨d, hd, hpd⟩ := (filter_length_ne_iff _ _).mp h
    simp only [Bool.not_eq_false'] at hpd
    refine ⟨?_, rfl, by simp⟩
    simp only [true_iff]
    simp only [FileStorage.docKeyMatch, Bool.and_eq_true, beq_iff_eq] at hpd
    exact ⟨d, hd, hpd⟩

/-- Witness for C10 at a concrete store: deleting the stored handbook
document reports `true` and empties the store, matching the filter
characterization. -/
theorem deleteDocument_spec_witness :
    ((FileStorage.deleteDocument "a1" "/docs/handbook.pdf" fixWorld.store).1 = true ↔
        ∃ d ∈ fixWorld.store.documents,
          d.assistantId = "a1" ∧ d.filePath = "/docs/handbook.pdf") ∧
    (FileStorage.deleteDocument "a1" "/docs/handbook.pdf" fixWorld.store).2.documents =
        fixWorld.store.documents.filter
          (fun d => !FileStorage.docKeyMatch "a1" "/docs/handbook.pdf" d) ∧
    ((FileStorage.deleteDocument "a1" "/docs/handbook.pdf" fixWorld.store).1 = false →
        (FileStorage.deleteDocument "a1" "/docs/handbook.pdf" fixWorld.store).2 =
          fixWorld.store) :=
  deleteDocument_spec "a1" "/docs/handbook.pdf" fixWorld.store

/-! ## C3: watcher suppression of unchanged files -/

/-- C3: a `changed` event for a path whose current checksum matches a
stored document of the assistant performs no repository write at all — the
whole store (documents, including their `processedAt` and `lastModified`
fields, and the assistants with their `lastDocumentSync`) is returned
unchanged, and no upsert is reported. -/
theorem changed_event_with_unchanged_checksum_is_noop
    (env : FileMonitor.MonitorEnv) (stat : String → Option FileMonitor.FileStat)
    (assistantId filePath : String) (now : Nat) (st : Store)
    (s : FileMonitor.FileStat) (hstat : stat filePath = some s)
    (hdoc : (((FileStorage.getDocumentsByAssistant assistantId st).find? fun doc =>
        doc.filePath == filePath
          && doc.checksum == env.generateChecksum s.bytes).isSome) = true) :
    FileMonitor.handleFileChange env stat assistantId filePath .changed now st
      = (st, false) := by
  unfold FileMonitor.handleFileChange
  rw [hstat]
  by_cases hf : s.isFile
  · simp only [hf, Bool.not_true, Bool.false_eq_true, if_false]
    by_cases hsup : DocumentProcessor.isFileSupported
        (FileMonitor.getMimeType filePath)
    · simp [hsup, hdoc]
    · simp [hsup]
  · simp [hf]

/-- Witness for C3: the concrete synced store and filesystem view — the
`changed` event for `/docs/a.txt` leaves the store untouched. -/
theorem changed_event_noop_witness :
    FileMonitor.handleFileChange fixMonitorEnv fixStat "a1" "/docs/a.txt"
      .changed 99 fixSyncedStore = (fixSyncedStore, false) :=
  changed_event_with_unchanged_checksum_is_noop fixMonitorEnv fixStat "a1"
    "/docs/a.txt" 99 fixSyncedStore ⟨true, "alpha", 5, 3⟩ (by decide) (by decide)

/-! ## C4: what syncFolder's processedCount counts -/

theorem syncFolder_fold_count (env : FileMonitor.MonitorEnv)
    (stat : String → Option FileMonitor.FileStat) (assistantId : String)
    (now : Nat) :
    ∀ (files : List String) (acc : Nat × Store),
      (files.foldl (fun acc filePath => (acc.1 + 1,
          (FileMonitor.handleFileChange env stat assistantId filePath
            .added now acc.2).1)) acc).1 = acc.1 + files.length
  | [], acc => by simp
  | f :: fs, acc => by
    rw [List.foldl_cons, syncFolder_fold_count env stat assistantId now fs]
    simp
    omega

/-- C4 (amended): the `processedCount` returned by `syncFolder` equals the
number of enumerated files — every enumerated file increments the counter,
whether or not its pipeline reached a repository upsert, because
`handleFileChange` catches its own errors and returns normally on every
skip. -/
theorem syncFolder_count_equals_enumerated_files
    (env : FileMonitor.MonitorEnv) (assistantId basePath : String)
    (entries : List FileMonitor.FSEntry) (now : Nat) (st : Store)
    (n : Nat) (st' : Store)
    (h : FileMonitor.syncFolder env assistantId basePath (some entries) now st
        = .ok (n, st')) :
    n = (FileMonitor.getAllFiles basePath entries).length := by
  unfold FileMonitor.syncFolder at h
  simp only [Except.ok.injEq] at h
  have := congrArg Prod.fst h
  simp only at this
  rw [← this, syncFolder_fold_count]
  simp

/-- Witness for C4's amended statement: the folder with one unsupported
file reports a count of 1, the length of its one-file enumeration. -/
theorem syncFolder_count_witness :
    (1 : Nat) = (FileMonitor.getAllFiles "/r" unsupportedOnlyFolder).length :=
  syncFolder_count_equals_enumerated_files fixMonitorEnv "a1" "/r"
    unsupportedOnlyFolder 0 {} 1 {} rfl

/-- Counterexample to C4 as stated: syncing a folder holding only the
unsupported file `notes.xyz` returns `processedCount = 1` (and leaves the
store untouched) while the number of files whose pipeline completed with a
successful repository upsert is 0. -/
theorem syncFolder_count_includes_skipped_file :
    FileMonitor.syncFolder fixMonitorEnv "a1" "/r" (some unsupportedOnlyFolder)
        0 {} = .ok (1, {}) ∧
    FileMonitor.syncUpsertCount fixMonitorEnv "a1" "/r" unsupportedOnlyFolder
        0 {} = 0 ∧
    (1 : Nat) ≠ FileMonitor.syncUpsertCount fixMonitorEnv "a1" "/r"
        unsupportedOnlyFolder 0 {} := by
  have h0 : FileMonitor.syncUpsertCount fixMonitorEnv "a1" "/r"
      unsupportedOnlyFolder 0 {} = 0 := rfl
  exact ⟨rfl, h0, by omega⟩

/-! ## C8: what syncFolder enumerates and what it skips -/

theorem mem_getAllFiles (basePath : String) (entries : List FileMonitor.FSEntry)
    (p : String) :
    p ∈ FileMonitor.getAllFiles basePath entries ↔
      FileMonitor.FileAt basePath entries p :=
  match entries with
  | [] => by
    constructor
    · intro h
      exact absurd h (List.not_mem_nil p)
    · intro h
      cases h
  | .file name bytes size mtime :: rest => by
    simp only [FileMonitor.getAllFiles, FileMonitor.getAllFilesEntry,
      List.singleton_append, List.mem_cons]
    constructor
    · rintro (rfl | h)
      · exact .here basePath name bytes size mtime rest
      · exact .inRest basePath _ rest p ((mem_getAllFiles basePath rest p).mp h)
    · intro h
      cases h with
      | here => exact Or.inl rfl
      | inRest _ _ _ _ h => exact Or.inr ((mem_getAllFiles basePath rest p).mpr h)
  | .dir name entries' :: rest => by
    simp only [FileMonitor.getAllFiles, FileMonitor.getAllFilesEntry, List.mem_append]
    constructor
    · rintro (h | h)
      · exact .inDir basePath name entries' rest p
          ((mem_getAllFiles (basePath ++ "/" ++ name) entries' p).mp h)
      · exact .inRest basePath _ rest p ((mem_getAllFiles basePath rest p).mp h)
    · intro h
      cases h with
      | inDir _ _ _ _ _ h =>
        exact Or.inl ((mem_getAllFiles (basePath ++ "/" ++ name) entries' p).mpr h)
      | inRest _ _ _ _ h => exact Or.inr ((mem_getAllFiles basePath rest p).mpr h)
  termination_by sizeOf entries

theorem handleFileChange_unsupported (env : FileMonitor.MonitorEnv)
    (stat : String → Option FileMonitor.FileStat) (assistantId filePath : String)
    (ct : FileMonitor.ChangeType) (now : Nat) (st : Store)
    (h : DocumentProcessor.isFileSupported (FileMonitor.getMimeType filePath) = false) :
    FileMonitor.handleFileChange env stat assistantId filePath ct now st
      = (st, false) := by
  unfold FileMonitor.handleFileChange
  cases hs : stat filePath with
  | none => rfl
  | some s =>
    by_cases hf : s.isFile
    · simp [hf, h]
    · simp [hf]

/-- C8 (amended): `syncFolder` enumerates every regular file of the folder
tree recursively — including hidden dotfiles, which only the live watcher's
`chokidar` ignore pattern excludes — and a file whose media type is
unsupported is dropped by `handleFileChange` before the
extract–checksum–metadata–upsert pipeline, leaving the store untouched. -/
theorem syncFolder_enumeration_and_unsupported_skip :
    (∀ (basePath : String) (entries : List FileMonitor.FSEntry) (p : String),
        p ∈ FileMonitor.getAllFiles basePath entries ↔
          FileMonitor.FileAt basePath entries p) ∧
    (∀ (env : FileMonitor.MonitorEnv) (stat : String → Option FileMonitor.FileStat)
        (assistantId filePath : String) (ct : FileMonitor.ChangeType) (now : Nat)
        (st : Store),
        DocumentProcessor.isFileSupported (FileMonitor.getMimeType filePath) = false →
        FileMonitor.handleFileChange env stat assistantId filePath ct now st
          = (st, false)) :=
  ⟨mem_getAllFiles, handleFileChange_unsupported⟩

/-- Witness for C8's amended statement at concrete inputs: the hidden
markdown file is enumerated, and the unsupported `notes.xyz` is skipped
without a store write. -/
theorem syncFolder_enumeration_witness :
    ("/r/.hidden.md" ∈ FileMonitor.getAllFiles "/r" hiddenFileFolder ↔
        FileMonitor.FileAt "/r" hiddenFileFolder "/r/.hidden.md") ∧
    FileMonitor.handleFileChange fixMonitorEnv fixStat "a1" "/r/notes.xyz"
        .added 0 {} = ({}, false) :=
  ⟨syncFolder_enumeration_and_unsupported_skip.1 "/r" hiddenFileFolder "/r/.hidden.md",
   syncFolder_enumeration_and_unsupported_skip.2 fixMonitorEnv fixStat "a1"
     "/r/notes.xyz" .added 0 {} (by decide)⟩

/-- Counterexample to C8 as stated: the hidden file `.hidden.md` (a
dotfile, but with the supported `text/markdown` media type) is enumerated
by `syncFolder` and runs through the full pipeline — its document is
upserted into the store. -/
theorem syncFolder_processes_hidden_file :
    FileMonitor.syncUpsertCount fixMonitorEnv "a1" "/r" hiddenFileFolder 0 {} = 1 ∧
    (FileMonitor.syncFolder fixMonitorEnv "a1" "/r" (some hiddenFileFolder) 0
        {}).map (fun r => r.2.documents.map fun d => d.filePath)
      = .ok ["/r/.hidden.md"] :=
  ⟨rfl, rfl⟩

/-! ## The updateDocument bridge -/

theorem docKeyMatch_iff (assistantId filePath : String) (d : Document) :
    FileStorage.docKeyMatch assistantId filePath d = true ↔
      d.assistantId = assistantId ∧ d.filePath = filePath := by
  simp [FileStorage.docKeyMatch]

theorem upsertDoc_of_no_match (assistantId filePath : String) (u : DocUpdate)
    (newDoc : Document) :
    ∀ (l : List Document),
      (∀ e ∈ l, FileStorage.docKeyMatch assistantId filePath e = false) →
      upsertDoc assistantId filePath u newDoc l = l ++ [newDoc]
  | [], _ => rfl
  | d :: ds, h => by
    unfold upsertDoc
    rw [h d (List.mem_cons_self d ds)]
    simp only [Bool.false_eq_true, if_false, List.cons_append, List.cons.injEq,
      true_and]
    exact upsertDoc_of_no_match assistantId filePath u newDoc ds
      fun e he => h e (List.mem_cons_of_mem d he)

/-- `updateDocument`'s effect on the document list is the recursive
replace-or-append `upsertDoc`, with the created record built from the key
and the updates and stamped with the store's fresh id. -/
theorem updateDocument_documents (assistantId filePath : String) (u : DocUpdate)
    (st : Store) :
    (FileStorage.updateDocument assistantId filePath u st).2.documents =
      upsertDoc assistantId filePath u
        ({ mergeDoc { assistantId := assistantId, filePath := filePath } u with
            _id := toString st.nextId }) st.documents := by
  obtain ⟨assistants, documents, nextId⟩ := st
  induction documents with
  | nil => rfl
  | cons d ds ih =>
    show (FileStorage.updateDocument assistantId filePath u
        ⟨assistants, d :: ds, nextId⟩).2.documents = _
    unfold FileStorage.updateDocument
    rw [List.findIdx?_cons]
    by_cases hd : FileStorage.docKeyMatch assistantId filePath d
    · simp only [hd, if_true]
      show (d :: ds).set 0 (mergeDoc ((d :: ds).getD 0 {}) u) = _
      unfold upsertDoc
      simp [hd, List.getD]
    · simp only [hd, Bool.false_eq_true, if_false, List.findIdx?_succ]
      cases hidx : ds.findIdx? (FileStorage.docKeyMatch assistantId filePath) with
      | none =>
        simp only [hidx, Option.map_none']
        show (d :: ds) ++ [_] = _
        rw [upsertDoc_of_no_match assistantId filePath u _ (d :: ds) ?_]
        intro e he
        rcases List.mem_cons.mp he with rfl | he'
        · exact Bool.not_eq_true _ ▸ (by simpa using hd)
        · exact List.findIdx?_eq_none_iff.mp hidx e he'
      | some j =>
        simp only [hidx, Option.map_some']
        show (d :: ds).set (j + 1) (mergeDoc ((d :: ds).getD (j + 1) {}) u) = _
        have hih := ih
        unfold FileStorage.updateDocument at hih
        rw [hidx] at hih
        simp only at hih
        unfold upsertDoc
        simp only [hd, Bool.false_eq_true, if_false, List.set_cons_succ,
          List.cons.injEq, true_and]
        simpa [List.getD] using hih

/-! ## C2: key uniqueness -/

theorem mergeDoc_key_of_match (assistantId filePath : String) (u : DocUpdate)
    (d : Document) (hd : FileStorage.docKeyMatch assistantId filePath d = true)
    (hA : u.assistantId = none ∨ u.assistantId = some assistantId)
    (hP : u.filePath = none ∨ u.filePath = some filePath) :
    docKey (mergeDoc d u) = docKey d := by
  obtain ⟨h1, h2⟩ := (docKeyMatch_iff assistantId filePath d).mp hd
  unfold docKey mergeDoc
  rcases hA with h | h <;> rcases hP with h' | h' <;> simp [h, h', h1, h2]

theorem upsertDoc_keys_mem (assistantId filePath : String) (u : DocUpdate)
    (newDoc : Document) (hNew : docKey newDoc = (assistantId, filePath))
    (hA : u.assistantId = none ∨ u.assistantId = some assistantId)
    (hP : u.filePath = none ∨ u.filePath = some filePath) :
    ∀ (l : List Document) (k : String × String),
      k ∈ (upsertDoc assistantId filePath u newDoc l).map docKey →
      k ∈ l.map docKey ∨ k = (assistantId, filePath)
  | [], k, hk => by
    simp only [upsertDoc, List.map_cons, List.map_nil, List.mem_singleton] at hk
    exact Or.inr (hk.trans hNew)
  | d :: ds, k, hk => by
    unfold upsertDoc at hk
    by_cases hd : FileStorage.docKeyMatch assistantId filePath d
    · rw [if_pos hd] at hk
      simp only [List.map_cons, List.mem_cons] at hk
      rcases hk with rfl | hk
      · exact Or.inl (by simp [mergeDoc_key_of_match assistantId filePath u d hd hA hP])
      · exact Or.inl (by simp [hk])
    · rw [if_neg hd] at hk
      simp only [List.map_cons, List.mem_cons] at hk
      rcases hk with rfl | hk
      · exact Or.inl (by simp)
      · rcases upsertDoc_keys_mem assistantId filePath u newDoc hNew hA hP ds k hk with
          h | h
        · exact Or.inl (by simp [h])
        · exact Or.inr h

theorem upsertDoc_uniqueKeys (assistantId filePath : String) (u : DocUpdate)
    (newDoc : Document) (hNew : docKey newDoc = (assistantId, filePath))
    (hA : u.assistantId = none ∨ u.assistantId = some assistantId)
    (hP : u.filePath = none ∨ u.filePath = some filePath) :
    ∀ (l : List Document), UniqueKeys l →
      UniqueKeys (upsertDoc assistantId filePath u newDoc l)
  | [], _ => by simp [UniqueKeys, upsertDoc]
  | d :: ds, h => by
    unfold UniqueKeys at h ⊢
    simp only [List.map_cons, List.nodup_cons] at h
    obtain ⟨hnot, hds⟩ := h
    unfold upsertDoc
    by_cases hd : FileStorage.docKeyMatch assistantId filePath d
    · rw [if_pos hd]
      simp only [List.map_cons, List.nodup_cons]
      rw [mergeDoc_key_of_match assistantId filePath u d hd hA hP]
      exact ⟨hnot, hds⟩
    · rw [if_neg hd]
      simp only [List.map_cons, List.nodup_cons]
      refine ⟨?_, upsertDoc_uniqueKeys assistantId filePath u newDoc hNew hA hP ds hds⟩
      intro hmem
      rcases upsertDoc_keys_mem assistantId filePath u newDoc hNew hA hP ds
          (docKey d) hmem with hin | heq
      · exact hnot hin
      · have : FileStorage.docKeyMatch assistantId filePath d = true := by
          rw [docKeyMatch_iff]
          exact ⟨congrArg Prod.fst heq, congrArg Prod.snd heq⟩
        rw [this] at hd
        exact hd rfl

theorem updateAssistant_documents (id : String) (u : AssistantUpdate) (now : Nat)
    (st : Store) :
    (FileStorage.updateAssistant id u now st).documents = st.documents := by
  unfold FileStorage.updateAssistant
  cases st.assistants.findIdx? (fun a => a._id == id) <;> rfl

theorem updateDocument_uniqueKeys (assistantId filePath : String) (u : DocUpdate)
    (st : Store) (hA : u.assistantId = none ∨ u.assistantId = some assistantId)
    (hP : u.filePath = none ∨ u.filePath = some filePath)
    (h : UniqueKeys st.documents) :
    UniqueKeys (FileStorage.updateDocument assistantId filePath u st).2.documents := by
  rw [updateDocument_documents]
  refine upsertDoc_uniqueKeys assistantId filePath u _ ?_ hA hP st.documents h
  unfold docKey mergeDoc
  rcases hA with hA' | hA' <;> rcases hP with hP' | hP' <;> simp [hA', hP']

theorem handleFileChange_uniqueKeys (env : FileMonitor.MonitorEnv)
    (stat : String → Option FileMonitor.FileStat) (assistantId filePath : String)
    (ct : FileMonitor.ChangeType) (now : Nat) (st : Store)
    (h : UniqueKeys st.documents) :
    UniqueKeys (FileMonitor.handleFileChange env stat assistantId filePath ct now
      st).1.documents := by
  unfold FileMonitor.handleFileChange
  cases stat filePath with
  | none => exact h
  | some s =>
    by_cases hf : s.isFile
    · simp only [hf, Bool.not_true, Bool.false_eq_true, if_false]
      by_cases hsup : DocumentProcessor.isFileSupported
          (FileMonitor.getMimeType filePath)
      · simp only [hsup, Bool.not_true, Bool.false_eq_true, if_false]
        by_cases hskip : (((FileStorage.getDocumentsByAssistant assistantId st).find?
            fun doc => doc.filePath == filePath
              && doc.checksum == env.generateChecksum s.bytes).isSome)
            && ct == FileMonitor.ChangeType.changed
        · simp only [hskip, if_true]
          exact h
        · simp only [hskip, Bool.false_eq_true, if_false]
          cases env.extractText s.bytes (FileMonitor.getMimeType filePath) with
          | error e => exact h
          | ok content =>
            simp only
            rw [updateAssistant_documents]
            exact updateDocument_uniqueKeys assistantId filePath _ st
              (Or.inr rfl) (Or.inr rfl) h
      · rw [Bool.not_eq_true] at hsup
        simp only [hsup, Bool.not_false, if_true]
        exact h
    · simp only [hf, Bool.not_false, if_true]
      exact h

theorem eventsFold_uniqueKeys (env : FileMonitor.MonitorEnv)
    (stat : String → Option FileMonitor.FileStat) (assistantId : String)
    (now : Nat) :
    ∀ (events : List (String × FileMonitor.ChangeType)) (st : Store),
      UniqueKeys st.documents →
      UniqueKeys ((events.foldl (fun s e =>
        (FileMonitor.handleFileChange env stat assistantId e.1 e.2 now s).1)
          st).documents)
  | [], st, h => h
  | e :: es, st, h =>
    eventsFold_uniqueKeys env stat assistantId now es _
      (handleFileChange_uniqueKeys env stat assistantId e.1 e.2 now st h)

/-- C2: starting from a store whose documents have pairwise distinct
`(assistantId, filePath)` keys, each repository operation preserves that
uniqueness: an `updateDocument` upsert whose updates carry the key it is
invoked with (as every add/change event does, creating via
`createDocument` on a missing key), a `deleteDocument`, and any sequence of
add/change events handled through `handleFileChange`. -/
theorem upsert_delete_preserve_key_uniqueness :
    (∀ (assistantId filePath : String) (u : DocUpdate) (st : Store),
        (u.assistantId = none ∨ u.assistantId = some assistantId) →
        (u.filePath = none ∨ u.filePath = some filePath) →
        UniqueKeys st.documents →
        UniqueKeys (FileStorage.updateDocument assistantId filePath u
          st).2.documents) ∧
    (∀ (assistantId filePath : String) (st : Store), UniqueKeys st.documents →
        UniqueKeys (FileStorage.deleteDocument assistantId filePath
          st).2.documents) ∧
    (∀ (env : FileMonitor.MonitorEnv) (stat : String → Option FileMonitor.FileStat)
        (assistantId : String) (now : Nat)
        (events : List (String × FileMonitor.ChangeType)) (st : Store),
        UniqueKeys st.documents →
        UniqueKeys ((events.foldl (fun s e =>
          (FileMonitor.handleFileChange env stat assistantId e.1 e.2 now s).1)
            st).documents)) := by
  refine ⟨fun aid fp u st hA hP h => updateDocument_uniqueKeys aid fp u st hA hP h,
    fun aid fp st h => ?_,
    fun env stat aid now events st h => eventsFold_uniqueKeys env stat aid now events st h⟩
  unfold FileStorage.deleteDocument
  by_cases hl : ((st.documents.filter
      (fun d => !FileStorage.docKeyMatch aid fp d)).length == st.documents.length)
  · rw [if_pos hl]
    exact h
  · rw [if_neg hl]
    unfold UniqueKeys at h ⊢
    exact ((List.filter_sublist st.documents).map docKey).nodup h

/-- Witness for C2 at concrete inputs: upserting a fresh path into the
synced one-document store, deleting from it, and handling a concrete
add-event sequence all keep the keys duplicate-free. -/
theorem key_uniqueness_witness :
    UniqueKeys ((FileStorage.updateDocument "a1" "/docs/new.txt"
        { assistantId := some "a1", filePath := some "/docs/new.txt" }
        fixSyncedStore).2.documents) ∧
    UniqueKeys ((FileStorage.deleteDocument "a1" "/docs/a.txt"
        fixSyncedStore).2.documents) ∧
    UniqueKeys ((([("/docs/a.txt", FileMonitor.ChangeType.added)] :
        List (String × FileMonitor.ChangeType)).foldl (fun s e =>
          (FileMonitor.handleFileChange fixMonitorEnv fixStat "a1" e.1 e.2 0 s).1)
        fixSyncedStore).documents) :=
  ⟨upsert_delete_preserve_key_uniqueness.1 "a1" "/docs/new.txt" _ fixSyncedStore
      (Or.inr rfl) (Or.inr rfl) (by unfold UniqueKeys; decide),
   upsert_delete_preserve_key_uniqueness.2.1 "a1" "/docs/a.txt" fixSyncedStore
      (by unfold UniqueKeys; decide),
   upsert_delete_preserve_key_uniqueness.2.2 fixMonitorEnv fixStat "a1" 0
      [("/docs/a.txt", FileMonitor.ChangeType.added)] fixSyncedStore
      (by unfold UniqueKeys; decide)⟩

/-! ## C1: idempotence of folder sync

The store's `(assistantId, filePath, checksum)` projection is what the
claim compares between runs; the lemmas below show one synced file acts on
that projection as the pure replace-or-append `upsertRec`, and that the
resulting fold is idempotent. -/

theorem projKeyMatch_docProj (assistantId filePath : String) (d : Document) :
    projKeyMatch assistantId filePath (docProj d)
      = FileStorage.docKeyMatch assistantId filePath d := rfl

theorem upsertRec_find?_self (assistantId filePath checksum : String) :
    ∀ (l : List (String × String × String)),
      (upsertRec assistantId filePath checksum l).find?
        (projKeyMatch assistantId filePath) = some (assistantId, filePath, checksum)
  | [] => by simp [upsertRec, List.find?, projKeyMatch]
  | t :: ts => by
    unfold upsertRec
    by_cases h : projKeyMatch assistantId filePath t
    · rw [if_pos h]
      simp [List.find?, projKeyMatch]
    · rw [if_neg h]
      rw [List.find?_cons_of_neg _ (by simpa using h)]
      exact upsertRec_find?_self assistantId filePath checksum ts

theorem upsertRec_find?_other (assistantId filePath checksum aid fp : String)
    (h : ¬(aid = assistantId ∧ fp = filePath)) :
    ∀ (l : List (String × String × String)),
      (upsertRec assistantId filePath checksum l).find? (projKeyMatch aid fp)
        = l.find? (projKeyMatch aid fp)
  | [] => by
    simp only [upsertRec, List.find?]
    have : projKeyMatch aid fp (assistantId, filePath, checksum) = false := by
      simp only [projKeyMatch]
      simp only [Bool.and_eq_false_iff, beq_eq_false_iff_ne, ne_eq]
      by_cases h1 : assistantId = aid
      · exact Or.inr fun h2 => h ⟨h1.symm, h2.symm⟩
      · exact Or.inl h1
    rw [this]
  | t :: ts => by
    unfold upsertRec
    by_cases ht : projKeyMatch assistantId filePath t
    · rw [if_pos ht]
      have hkey : projKeyMatch aid fp t = false := by
        simp only [projKeyMatch, Bool.and_eq_true, beq_iff_eq] at ht
        simp only [projKeyMatch, Bool.and_eq_false_iff, beq_eq_false_iff_ne, ne_eq]
        by_cases h1 : t.1 = aid
        · exact Or.inr fun h2 => h ⟨h1 ▸ ht.1.symm ▸ rfl, h2 ▸ ht.2.symm ▸ rfl⟩
        · exact Or.inl h1
      have hnew : projKeyMatch aid fp (assistantId, filePath, checksum) = false := by
        simp only [projKeyMatch, Bool.and_eq_false_iff, beq_eq_false_iff_ne, ne_eq]
        by_cases h1 : assistantId = aid
        · exact Or.inr fun h2 => h ⟨h1.symm, h2.symm⟩
        · exact Or.inl h1
      rw [List.find?_cons_of_neg _ (by simp [hnew]), List.find?_cons_of_neg _ (by simp [hkey])]
    · rw [if_neg ht]
      by_cases hk : projKeyMatch aid fp t
      · rw [List.find?_cons_of_pos _ hk, List.find?_cons_of_pos _ hk]
      · rw [List.find?_cons_of_neg _ (by simpa using hk),
          List.find?_cons_of_neg _ (by simpa using hk)]
        exact upsertRec_find?_other assistantId filePath checksum aid fp h ts

theorem upsertRec_self_noop (assistantId filePath checksum : String) :
    ∀ (l : List (String × String × String)),
      l.find? (projKeyMatch assistantId filePath)
        = some (assistantId, filePath, checksum) →
      upsertRec assistantId filePath checksum l = l
  | [], h => by simp [List.find?] at h
  | t :: ts, h => by
    unfold upsertRec
    by_cases ht : projKeyMatch assistantId filePath t
    · rw [if_pos ht]
      rw [List.find?_cons_of_pos _ ht] at h
      rw [Option.some.injEq] at h
      rw [h]
    · rw [if_neg ht]
      rw [List.find?_cons_of_neg _ (by simpa using ht)] at h
      rw [upsertRec_self_noop assistantId filePath checksum ts h]

theorem projStep_find?_preserved (env : FileMonitor.MonitorEnv)
    (stat : String → Option FileMonitor.FileStat) (assistantId filePath checksum : String)
    (hc : FileMonitor.addOutcome env stat filePath = some checksum)
    (q : String) (l : List (String × String × String))
    (h : l.find? (projKeyMatch assistantId filePath)
        = some (assistantId, filePath, checksum)) :
    (FileMonitor.projStep env stat assistantId l q).find?
      (projKeyMatch assistantId filePath) = some (assistantId, filePath, checksum) := by
  unfold FileMonitor.projStep
  cases hq : FileMonitor.addOutcome env stat q with
  | none => exact h
  | some c' =>
    by_cases hqf : q = filePath
    · subst hqf
      rw [hq] at hc
      rw [Option.some.injEq] at hc
      subst hc
      exact upsertRec_find?_self assistantId q c' l
    · rw [upsertRec_find?_other assistantId q c' assistantId filePath
        (fun hpair => hqf hpair.2.symm) l]
      exact h

theorem projRun_preserves (env : FileMonitor.MonitorEnv)
    (stat : String → Option FileMonitor.FileStat) (assistantId filePath checksum : String)
    (hc : FileMonitor.addOutcome env stat filePath = some checksum) :
    ∀ (files : List String) (l : List (String × String × String)),
      l.find? (projKeyMatch assistantId filePath)
        = some (assistantId, filePath, checksum) →
      (files.foldl (FileMonitor.projStep env stat assistantId) l).find?
        (projKeyMatch assistantId filePath) = some (assistantId, filePath, checksum)
  | [], l, h => h
  | q :: qs, l, h =>
    projRun_preserves env stat assistantId filePath checksum hc qs _
      (projStep_find?_preserved env stat assistantId filePath checksum hc q l h)

theorem projRun_establishes (env : FileMonitor.MonitorEnv)
    (stat : String → Option FileMonitor.FileStat) (assistantId : String) :
    ∀ (files : List String) (l : List (String × String × String))
      (filePath checksum : String), filePath ∈ files →
      FileMonitor.addOutcome env stat filePath = some checksum →
      (files.foldl (FileMonitor.projStep env stat assistantId) l).find?
        (projKeyMatch assistantId filePath) = some (assistantId, filePath, checksum)
  | [], _, _, _, hmem, _ => absurd hmem (List.not_mem_nil _)
  | q :: qs, l, filePath, checksum, hmem, hc => by
    rw [List.foldl_cons]
    rcases List.mem_cons.mp hmem with rfl | hmem'
    · refine projRun_preserves env stat assistantId filePath checksum hc qs _ ?_
      unfold FileMonitor.projStep
      rw [hc]
      exact upsertRec_find?_self assistantId filePath checksum l
    · exact projRun_establishes env stat assistantId qs _ filePath checksum hmem' hc

theorem projRun_stable (env : FileMonitor.MonitorEnv)
    (stat : String → Option FileMonitor.FileStat) (assistantId : String) :
    ∀ (files : List String) (l : List (String × String × String)),
      (∀ filePath ∈ files, ∀ checksum,
        FileMonitor.addOutcome env stat filePath = some checksum →
        l.find? (projKeyMatch assistantId filePath)
          = some (assistantId, filePath, checksum)) →
      files.foldl (FileMonitor.projStep env stat assistantId) l = l
  | [], _, _ => rfl
  | q :: qs, l, h => by
    rw [List.foldl_cons]
    have hstep : FileMonitor.projStep env stat assistantId l q = l := by
      unfold FileMonitor.projStep
      cases hq : FileMonitor.addOutcome env stat q with
      | none => rfl
      | some c =>
        exact upsertRec_self_noop assistantId q c l
          (h q (List.mem_cons_self q qs) c hq)
    rw [hstep]
    exact projRun_stable env stat assistantId qs l
      fun fp hfp c hc => h fp (List.mem_cons_of_mem q hfp) c hc

theorem projRun_idem (env : FileMonitor.MonitorEnv)
    (stat : String → Option FileMonitor.FileStat) (assistantId : String)
    (files : List String) (l : List (String × String × String)) :
    files.foldl (FileMonitor.projStep env stat assistantId)
      (files.foldl (FileMonitor.projStep env stat assistantId) l)
      = files.foldl (FileMonitor.projStep env stat assistantId) l :=
  projRun_stable env stat assistantId files _
    fun fp hfp c hc => projRun_establishes env stat assistantId files l fp c hfp hc

theorem upsertDoc_map_docProj (assistantId filePath checksum : String)
    (u : DocUpdate) (newDoc : Document) (hA : u.assistantId = some assistantId)
    (hP : u.filePath = some filePath) (hC : u.checksum = some checksum)
    (hNew : docProj newDoc = (assistantId, filePath, checksum)) :
    ∀ (l : List Document),
      (upsertDoc assistantId filePath u newDoc l).map docProj
        = upsertRec assistantId filePath checksum (l.map docProj)
  | [] => by simp [upsertDoc, upsertRec, hNew]
  | d :: ds => by
    unfold upsertDoc
    simp only [List.map_cons]
    unfold upsertRec
    rw [projKeyMatch_docProj]
    by_cases hd : FileStorage.docKeyMatch assistantId filePath d
    · rw [if_pos hd, if_pos hd]
      simp only [List.map_cons, List.cons.injEq, and_true]
      unfold docProj mergeDoc
      simp [hA, hP, hC]
    · rw [if_neg hd, if_neg hd]
      simp only [List.map_cons, List.cons.injEq, true_and]
      exact upsertDoc_map_docProj assistantId filePath checksum u newDoc hA hP hC
        hNew ds

theorem handleFileChange_added_proj (env : FileMonitor.MonitorEnv)
    (stat : String → Option FileMonitor.FileStat) (assistantId filePath : String)
    (now : Nat) (st : Store) :
    ((FileMonitor.handleFileChange env stat assistantId filePath .added now
        st).1.documents).map docProj
      = FileMonitor.projStep env stat assistantId (st.documents.map docProj)
          filePath := by
  unfold FileMonitor.handleFileChange FileMonitor.projStep FileMonitor.addOutcome
  cases stat filePath with
  | none => rfl
  | some s =>
    by_cases hf : s.isFile
    · simp only [hf, Bool.not_true, Bool.false_eq_true, if_false]
      by_cases hsup : DocumentProcessor.isFileSupported
          (FileMonitor.getMimeType filePath)
      · simp only [hsup, Bool.not_true, Bool.false_eq_true, if_false]
        have hnoskip : ((((FileStorage.getDocumentsByAssistant assistantId st).find?
            fun doc => doc.filePath == filePath
              && doc.checksum == env.generateChecksum s.bytes).isSome)
            && (FileMonitor.ChangeType.added == FileMonitor.ChangeType.changed))
              = false := by
          simp
        rw [hnoskip]
        simp only [Bool.false_eq_true, if_false]
        cases env.extractText s.bytes (FileMonitor.getMimeType filePath) with
        | error e => rfl
        | ok content =>
          simp only
          rw [updateAssistant_documents, updateDocument_documents]
          apply upsertDoc_map_docProj <;> rfl
      · rw [Bool.not_eq_true] at hsup
        simp only [hsup, Bool.not_false, if_true]
    · simp only [hf, Bool.not_false, if_true]

theorem syncFold_proj (env : FileMonitor.MonitorEnv)
    (stat : String → Option FileMonitor.FileStat) (assistantId : String)
    (now : Nat) :
    ∀ (files : List String) (acc : Nat × Store),
      ((files.foldl (fun (acc : Nat × Store) filePath => (acc.1 + 1,
          (FileMonitor.handleFileChange env stat assistantId filePath .added now
            acc.2).1)) acc).2.documents).map docProj
        = files.foldl (FileMonitor.projStep env stat assistantId)
            ((acc.2.documents).map docProj)
  | [], acc => rfl
  | f :: fs, acc => by
    rw [List.foldl_cons, List.foldl_cons]
    rw [syncFold_proj env stat assistantId now fs]
    rw [handleFileChange_added_proj]

/-- C1: syncing an unchanged folder a second time leaves the document set
as the first run produced it — the `(assistantId, filePath, checksum)`
projection of the store is unchanged record for record, so the count, the
keys and the checksums all agree and no duplicate records appear. -/
theorem syncFolder_idempotent_on_unchanged_folder
    (env : FileMonitor.MonitorEnv) (assistantId basePath : String)
    (entries : List FileMonitor.FSEntry) (now1 now2 : Nat) (st : Store)
    (n1 n2 : Nat) (st1 st2 : Store)
    (h1 : FileMonitor.syncFolder env assistantId basePath (some entries) now1 st
        = .ok (n1, st1))
    (h2 : FileMonitor.syncFolder env assistantId basePath (some entries) now2 st1
        = .ok (n2, st2)) :
    st2.documents.map docProj = st1.documents.map docProj := by
  unfold FileMonitor.syncFolder at h1 h2
  simp only [Except.ok.injEq] at h1 h2
  have e1 := congrArg Prod.snd h1
  have e2 := congrArg Prod.snd h2
  simp only at e1 e2
  have e1' : st1.documents.map docProj
      = (FileMonitor.getAllFiles basePath entries).foldl
          (FileMonitor.projStep env
            (FileMonitor.statOf (FileMonitor.fsStats basePath entries)) assistantId)
          (st.documents.map docProj) := by
    rw [← e1]
    exact syncFold_proj env _ assistantId now1 _ (0, st)
  have e2' : st2.documents.map docProj
      = (FileMonitor.getAllFiles basePath entries).foldl
          (FileMonitor.projStep env
            (FileMonitor.statOf (FileMonitor.fsStats basePath entries)) assistantId)
          (st1.documents.map docProj) := by
    rw [← e2]
    exact syncFold_proj env _ assistantId now2 _ (0, st1)
  rw [e2', e1']
  exact projRun_idem env (FileMonitor.statOf (FileMonitor.fsStats basePath entries))
    assistantId (FileMonitor.getAllFiles basePath entries) (st.documents.map docProj)

/-- Witness for C1: syncing the concrete one-file folder twice (times 100
and 200) gives stores with identical projections. -/
theorem syncFolder_idempotence_witness :
    fixRun2Store.documents.map docProj = fixRun1Store.documents.map docProj :=
  syncFolder_idempotent_on_unchanged_folder fixMonitorEnv "a1" "/r" fixFolder
    100 200 {} 1 1 fixRun1Store fixRun2Store (by rfl) (by rfl)

/-! ## C6: graceful degradation of generateResponse -/

theorem ensure_all_fail_go (env : AIService.AIEnv) :
    ∀ (docs : List Document) (r : AIService.EnsureResult),
      (∀ d ∈ docs, AIService.cacheGet r.cache d._id = none) →
      (∀ d ∈ docs, env.upload d = none) →
      docs.foldl (AIService.ensureStep env) r
        = { fileIds := r.fileIds, cache := r.cache
            attempted := r.attempted ++ docs.map Document._id }
  | [], r, _, _ => by simp
  | d :: ds, r, hcache, hup => by
    rw [List.foldl_cons]
    have hstep : AIService.ensureStep env r d
        = { fileIds := r.fileIds, cache := r.cache
            attempted := r.attempted ++ [d._id] } := by
      unfold AIService.ensureStep AIService.getAmplifyFileId
      rw [hcache d (List.mem_cons_self d ds), hup d (List.mem_cons_self d ds)]
    rw [hstep]
    rw [ensure_all_fail_go env ds
      { fileIds := r.fileIds, cache := r.cache, attempted := r.attempted ++ [d._id] }
      (fun e he => hcache e (List.mem_cons_of_mem d he))
      (fun e he => hup e (List.mem_cons_of_mem d he))]
    simp

set_option maxRecDepth 10000 in
theorem errorMessage_ne_empty (a : Assistant) (userMessage : String) :
    AIService.generateAssistantSpecificErrorMessage a userMessage ≠ "" := by
  intro h
  have hlen : (AIService.generateAssistantSpecificErrorMessage a
      userMessage).length = 0 := by
    rw [h]
    rfl
  simp only [AIService.generateAssistantSpecificErrorMessage,
    String.length_append] at hlen
  have hpos : 0 < String.length "I'm currently experiencing technical difficulties connecting to my document system. I'm designed to provide information from official university policies and handbooks, but I'm having trouble accessing those documents right now.\n\nFor help with your question about \"" := by
    decide
  omega

/-- C6: for an existing assistant, when every remote upload fails and the
in-memory cache holds nothing for the assistant's documents (so the file-id
list comes back empty), `generateResponse` resolves — no error propagates —
to the assistant-specific fallback message, which is never the empty
string. -/
theorem generateResponse_falls_back_when_uploads_fail
    (env : AIService.AIEnv) (assistantId userMessage : String)
    (history : List Message) (rt : Nat) (st : Store)
    (cache : AIService.FileCache) (a : Assistant)
    (ha : FileStorage.getAssistantById assistantId st = some a)
    (hcache : ∀ d ∈ FileStorage.getDocumentsByAssistant assistantId st,
      AIService.cacheGet cache d._id = none)
    (hup : ∀ d, env.upload d = none) :
    AIService.generateResponse env assistantId userMessage history rt st cache
      = .ok ({ response := AIService.generateAssistantSpecificErrorMessage a
                 userMessage
               citations := AIService.generateSimpleCitations
                 (FileStorage.getDocumentsByAssistant assistantId st)
               responseTime := rt }, cache) ∧
    AIService.generateAssistantSpecificErrorMessage a userMessage ≠ "" := by
  refine ⟨?_, errorMessage_ne_empty a userMessage⟩
  unfold AIService.generateResponse
  rw [ha]
  dsimp only
  unfold AIService.ensureDocsUploadedToAmplify
  rw [ensure_all_fail_go env (FileStorage.getDocumentsByAssistant assistantId st)
    { fileIds := [], cache := cache, attempted := [] }
    (by simpa using hcache) (fun d _ => hup d)]
  simp

/-- Witness for C6: the concrete one-document store with the always-failing
environment resolves to the fallback message. -/
theorem generateResponse_fallback_witness :
    AIService.generateResponse failingAIEnv "a1" "hello" [] 5 fixWorld.store []
      = .ok ({ response := AIService.generateAssistantSpecificErrorMessage
                 fixAssistant "hello"
               citations := AIService.generateSimpleCitations
                 (FileStorage.getDocumentsByAssistant "a1" fixWorld.store)
               responseTime := 5 }, []) ∧
    AIService.generateAssistantSpecificErrorMessage fixAssistant "hello" ≠ "" :=
  generateResponse_falls_back_when_uploads_fail failingAIEnv "a1" "hello" [] 5
    fixWorld.store [] fixAssistant rfl (by decide) (fun _ => rfl)

/-! ## C7: the Amplify file-id cache -/

theorem cacheGet_cons (k' v' j : String) (rest : AIService.FileCache) :
    AIService.cacheGet ((k', v') :: rest) j
      = if k' = j then some v' else AIService.cacheGet rest j := by
  unfold AIService.cacheGet
  by_cases h : k' = j
  · rw [if_pos h, List.find?_cons_of_pos _ (by simpa using h)]
    rfl
  · rw [if_neg h, List.find?_cons_of_neg _ (by simpa using h)]

theorem cacheGet_cacheSet (k v j : String) :
    ∀ (cache : AIService.FileCache),
      AIService.cacheGet (AIService.cacheSet cache k v) j
        = if j = k then some v else AIService.cacheGet cache j
  | [] => by
    show AIService.cacheGet [(k, v)] j = _
    rw [cacheGet_cons]
    by_cases h : j = k
    · rw [if_pos h.symm, if_pos h]
    · rw [if_neg (fun hh => h hh.symm), if_neg h]
  | (k', v') :: rest => by
    unfold AIService.cacheSet
    by_cases hk : k' = k
    · rw [if_pos (by simpa using hk)]
      subst hk
      rw [cacheGet_cons, cacheGet_cons]
      by_cases hj : k' = j
      · rw [if_pos hj, if_pos hj.symm]
      · rw [if_neg hj, if_neg hj, if_neg (fun hh => hj hh.symm)]
    · rw [if_neg (by simpa using hk)]
      rw [cacheGet_cons, cacheGet_cons]
      by_cases hj : k' = j
      · rw [if_pos hj, if_pos hj, if_neg (fun hh => hk (hj.trans hh))]
      · rw [if_neg hj, if_neg hj, cacheGet_cacheSet k v j rest]

theorem ensure_go (env : AIService.AIEnv) (cache0 : AIService.FileCache) :
    ∀ (docs : List Document) (r : AIService.EnsureResult),
      (∀ d ∈ docs, AIService.cacheGet r.cache d._id
        = AIService.cacheGet cache0 d._id) →
      (docs.map Document._id).Nodup →
      (docs.foldl (AIService.ensureStep env) r).fileIds
          = r.fileIds ++ docs.filterMap
              (fun d => (AIService.cacheGet cache0 d._id).or (env.upload d)) ∧
      (docs.foldl (AIService.ensureStep env) r).attempted
          = r.attempted ++ (docs.filter
              (fun d => (AIService.cacheGet cache0 d._id).isNone)).map Document._id ∧
      (∀ d ∈ docs, ∀ fid, AIService.cacheGet cache0 d._id = none →
        env.upload d = some fid →
        AIService.cacheGet (docs.foldl (AIService.ensureStep env) r).cache d._id
          = some fid) ∧
      (∀ k, (∀ d ∈ docs, d._id ≠ k) →
        AIService.cacheGet (docs.foldl (AIService.ensureStep env) r).cache k
          = AIService.cacheGet r.cache k)
  | [], r, _, _ => by
    refine ⟨by simp, by simp, ?_, fun k _ => rfl⟩
    intro d hd
    exact absurd hd (List.not_mem_nil d)
  | d :: ds, r, hinv, hnodup => by
    have hd := hinv d (List.mem_cons_self d ds)
    simp only [List.map_cons, List.nodup_cons] at hnodup
    obtain ⟨hdnotin, hnodup'⟩ := hnodup
    rw [List.foldl_cons]
    cases hc0 : AIService.cacheGet cache0 d._id with
    | some fid =>
      have hstep : AIService.ensureStep env r d
          = { r with fileIds := r.fileIds ++ [fid] } := by
        unfold AIService.ensureStep AIService.getAmplifyFileId
        rw [hd, hc0]
      rw [hstep]
      obtain ⟨ih1, ih2, ih3, ih4⟩ := ensure_go env cache0 ds
        { r with fileIds := r.fileIds ++ [fid] }
        (fun e he => hinv e (List.mem_cons_of_mem d he)) hnodup'
      refine ⟨?_, ?_, ?_, ?_⟩
      · rw [ih1]
        simp [List.filterMap_cons, hc0, Option.or]
      · rw [ih2]
        simp [List.filter_cons, hc0]
      · intro e he fid' hce hue
        rcases List.mem_cons.mp he with rfl | he'
        · rw [hce] at hc0
          cases hc0
        · exact ih3 e he' fid' hce hue
      · intro k hk
        exact ih4 k fun e he => hk e (List.mem_cons_of_mem d he)
    | none =>
      have hrd : AIService.cacheGet r.cache d._id = none := hd.trans hc0
      cases hup : env.upload d with
      | some fid =>
        have hstep : AIService.ensureStep env r d
            = { fileIds := r.fileIds ++ [fid]
                cache := AIService.cacheSet r.cache d._id fid
                attempted := r.attempted ++ [d._id] } := by
          unfold AIService.ensureStep AIService.getAmplifyFileId
            AIService.storeAmplifyFileId
          rw [hrd, hup]
        rw [hstep]
        have hinv' : ∀ e ∈ ds,
            AIService.cacheGet (AIService.cacheSet r.cache d._id fid) e._id
              = AIService.cacheGet cache0 e._id := by
          intro e he
          rw [cacheGet_cacheSet]
          rw [if_neg (fun h => hdnotin
            (by rw [← h]; exact List.mem_map_of_mem Document._id he))]
          exact hinv e (List.mem_cons_of_mem d he)
        obtain ⟨ih1, ih2, ih3, ih4⟩ := ensure_go env cache0 ds
          { fileIds := r.fileIds ++ [fid]
            cache := AIService.cacheSet r.cache d._id fid
            attempted := r.attempted ++ [d._id] } hinv' hnodup'
        refine ⟨?_, ?_, ?_, ?_⟩
        · rw [ih1]
          simp [List.filterMap_cons, hc0, hup, Option.or]
        · rw [ih2]
          simp [List.filter_cons, hc0]
        · intro e he fid' hce hue
          rcases List.mem_cons.mp he with rfl | he'
          · rw [hue] at hup
            rw [Option.some.injEq] at hup
            subst hup
            rw [ih4 e._id (fun e' he' h => hdnotin
              (by rw [← h]; exact List.mem_map_of_mem Document._id he'))]
            rw [cacheGet_cacheSet]
            simp
          · exact ih3 e he' fid' hce hue
        · intro k hk
          rw [ih4 k (fun e he => hk e (List.mem_cons_of_mem d he))]
          rw [cacheGet_cacheSet]
          rw [if_neg (fun h => hk d (List.mem_cons_self d ds) h.symm)]
      | none =>
        have hstep : AIService.ensureStep env r d
            = { r with attempted := r.attempted ++ [d._id] } := by
          unfold AIService.ensureStep AIService.getAmplifyFileId
          rw [hrd, hup]
        rw [hstep]
        obtain ⟨ih1, ih2, ih3, ih4⟩ := ensure_go env cache0 ds
          { r with attempted := r.attempted ++ [d._id] }
          (fun e he => hinv e (List.mem_cons_of_mem d he)) hnodup'
        refine ⟨?_, ?_, ?_, ?_⟩
        · rw [ih1]
          simp [List.filterMap_cons, hc0, hup, Option.or]
        · rw [ih2]
          simp [List.filter_cons, hc0]
        · intro e he fid' hce hue
          rcases List.mem_cons.mp he with rfl | he'
          · rw [hue] at hup
            cases hup
          · exact ih3 e he' fid' hce hue
        · intro k hk
          exact ih4 k fun e he => hk e (List.mem_cons_of_mem d he)

/-- C7 (amended): over a batch of documents with distinct ids, the Amplify
sync reuses a cached external id without a new upload, collects the id of
each successful upload and records it in the process-wide in-memory cache
keyed by the document's id — not on the stored `Document` record, whose
`amplifyFileId` field this code path never reads or writes (the persistent
store passes through untouched) — and a failed upload is simply omitted
from the returned id list without aborting the rest of the batch. -/
theorem ensureDocsUploaded_cache_reuse_and_skip (env : AIService.AIEnv)
    (docs : List Document) (cache0 : AIService.FileCache)
    (w : AIService.AmplifyWorld) (hnodup : (docs.map Document._id).Nodup) :
    (AIService.ensureDocsUploadedToAmplify env docs cache0).fileIds
        = docs.filterMap
            (fun d => (AIService.cacheGet cache0 d._id).or (env.upload d)) ∧
    (AIService.ensureDocsUploadedToAmplify env docs cache0).attempted
        = (docs.filter
            (fun d => (AIService.cacheGet cache0 d._id).isNone)).map Document._id ∧
    (∀ d ∈ docs, ∀ fid, AIService.cacheGet cache0 d._id = none →
        env.upload d = some fid →
        AIService.cacheGet
          (AIService.ensureDocsUploadedToAmplify env docs cache0).cache d._id
          = some fid) ∧
    (AIService.ensureDocsUploadedToAmplifyW env docs w).2.store = w.store := by
  obtain ⟨ih1, ih2, ih3, _⟩ := ensure_go env cache0 docs
    { fileIds := [], cache := cache0, attempted := [] } (fun _ _ => rfl) hnodup
  exact ⟨by simpa using ih1, by simpa using ih2, ih3, rfl⟩

/-- Witness for C7's amended statement at the concrete one-document world
with a succeeding upload. -/
theorem ensureDocsUploaded_witness :
    (AIService.ensureDocsUploadedToAmplify succeedingAIEnv [fixDoc] []).fileIds
        = [fixDoc].filterMap
            (fun d => (AIService.cacheGet [] d._id).or (succeedingAIEnv.upload d)) ∧
    (AIService.ensureDocsUploadedToAmplify succeedingAIEnv [fixDoc] []).attempted
        = ([fixDoc].filter
            (fun d => (AIService.cacheGet [] d._id).isNone)).map Document._id ∧
    (∀ d ∈ [fixDoc], ∀ fid, AIService.cacheGet [] d._id = none →
        succeedingAIEnv.upload d = some fid →
        AIService.cacheGet
          (AIService.ensureDocsUploadedToAmplify succeedingAIEnv [fixDoc] []).cache
          d._id = some fid) ∧
    (AIService.ensureDocsUploadedToAmplifyW succeedingAIEnv [fixDoc]
        fixWorld).2.store = fixWorld.store :=
  ensureDocsUploaded_cache_reuse_and_skip succeedingAIEnv [fixDoc] [] fixWorld
    (by decide)

/-- Counterexample to C7 as stated: a successful upload returns the id
`f1` and caches it only in the in-memory map — the persistent document
store is unchanged and no stored record carries `f1` in its
`amplifyFileId` field. -/
theorem successful_upload_id_not_persisted_to_document :
    (AIService.ensureDocsUploadedToAmplifyW succeedingAIEnv
        fixWorld.store.documents fixWorld).1.fileIds = ["f1"] ∧
    (AIService.ensureDocsUploadedToAmplifyW succeedingAIEnv
        fixWorld.store.documents fixWorld).2.store = fixWorld.store ∧
    (AIService.ensureDocsUploadedToAmplifyW succeedingAIEnv
        fixWorld.store.documents fixWorld).2.store.documents.all
        (fun d => d.amplifyFileId != some "f1") = true ∧
    (AIService.ensureDocsUploadedToAmplifyW succeedingAIEnv
        fixWorld.store.documents fixWorld).2.amplifyFileCache = [("7", "f1")] :=
  ⟨rfl, rfl, rfl, rfl⟩

/-! ## C5: table-of-contents rejection in the context selector -/

theorem sectionStep_mem (content : String) (acc : List String) (phrase : String)
    (x : String) (hx : x ∈ AIService.sectionStep content acc phrase) :
    x ∈ acc ∨ AIService.sectionPasses x = true := by
  unfold AIService.sectionStep at hx
  cases hidx : indexOf? (toLower content) phrase with
  | none =>
    rw [hidx] at hx
    exact Or.inl hx
  | some phraseIndex =>
    rw [hidx] at hx
    dsimp only at hx
    by_cases hp : AIService.sectionPasses (substring content (phraseIndex - 1000)
        (min content.length (phraseIndex + 4000)))
    · rw [if_pos hp] at hx
      rcases List.mem_append.mp hx with h | h
      · exact Or.inl h
      · rw [List.mem_singleton] at h
        subst h
        exact Or.inr hp
    · rw [if_neg hp] at hx
      exact Or.inl hx

theorem sectionsFold_mem (content : String) :
    ∀ (phrases : List String) (acc : List String) (x : String),
      x ∈ phrases.foldl (AIService.sectionStep content) acc →
      x ∈ acc ∨ AIService.sectionPasses x = true
  | [], _, _, hx => Or.inl hx
  | p :: ps, acc, x, hx => by
    rw [List.foldl_cons] at hx
    rcases sectionsFold_mem content ps (AIService.sectionStep content acc p) x hx
        with h | h
    · exact sectionStep_mem content acc p x h
    · exact Or.inr h

theorem bestSections_all (content query : String) (x : String)
    (hx : x ∈ AIService.bestSectionsFor content query) :
    AIService.sectionPasses x = true := by
  rcases sectionsFold_mem content (AIService.targetPhrasesFor query) [] x hx with
    h | h
  · exact absurd h (List.not_mem_nil x)
  · exact h

theorem longestFold_mem :
    ∀ (rest : List String) (first : String),
      (rest.foldl (fun longest current =>
        if current.length > longest.length then current else longest) first)
        ∈ first :: rest
  | [], first => List.mem_singleton.mpr rfl
  | c :: cs, first => by
    rw [List.foldl_cons]
    by_cases h : c.length > first.length
    · rw [if_pos h]
      rcases List.mem_cons.mp (longestFold_mem cs c) with h' | h'
      · rw [h']
        exact List.mem_cons_of_mem first (List.mem_cons_self c cs)
      · exact List.mem_cons_of_mem first (List.mem_cons_of_mem c h')
    · rw [if_neg h]
      rcases List.mem_cons.mp (longestFold_mem cs first) with h' | h'
      · rw [h']
        exact List.mem_cons_self first (c :: cs)
      · exact List.mem_cons_of_mem first (List.mem_cons_of_mem c h')

/-- C5 (amended): whenever `extractQueryRelevantContent` returns a
non-empty excerpt, that excerpt passed the table-of-contents heuristic —
it contains no spaced dot-leader run `. . . . . . . .`, does not contain
`table of contents` (case-insensitively), and spans more than 3 lines.
The heuristic checks exactly these three conditions, so a dot-leader
written with contiguous dots (as in `Refunds .......... 42`) is *not*
rejected — the counterexample below shows such a window being returned. -/
theorem selected_excerpt_passes_toc_checks (content query : String)
    (h : AIService.extractQueryRelevantContent content query ≠ "") :
    includes (AIService.extractQueryRelevantContent content query)
        ". . . . . . . ." = false ∧
    includes (toLower (AIService.extractQueryRelevantContent content query))
        "table of contents" = false ∧
    (splitOn '\n' (AIService.extractQueryRelevantContent content query)).length
        > 3 := by
  have hpass : AIService.sectionPasses
      (AIService.extractQueryRelevantContent content query) = true := by
    unfold AIService.extractQueryRelevantContent at h ⊢
    cases hbs : AIService.bestSectionsFor content query with
    | nil =>
      rw [hbs] at h
      exact absurd rfl h
    | cons first rest =>
      show AIService.sectionPasses
        (rest.foldl (fun longest current =>
          if current.length > longest.length then current else longest) first) = true
      exact bestSections_all content query _
        (by rw [hbs]; exact longestFold_mem rest first)
  unfold AIService.sectionPasses at hpass
  simp only [Bool.and_eq_true, Bool.not_eq_true'] at hpass
  exact ⟨hpass.1.1, hpass.1.2, by simpa using hpass.2⟩

/-- Witness for C5's amended statement: a small document whose
financial-aid section survives the check. -/
theorem selected_excerpt_witness :
    AIService.extractQueryRelevantContent "financial aid\naa\nbb\ncc"
        "scholarship" ≠ "" ∧
    (includes (AIService.extractQueryRelevantContent "financial aid\naa\nbb\ncc"
        "scholarship") ". . . . . . . ." = false ∧
     includes (toLower (AIService.extractQueryRelevantContent
        "financial aid\naa\nbb\ncc" "scholarship")) "table of contents" = false ∧
     (splitOn '\n' (AIService.extractQueryRelevantContent
        "financial aid\naa\nbb\ncc" "scholarship")).length > 3) :=
  have h : AIService.extractQueryRelevantContent "financial aid\naa\nbb\ncc"
      "scholarship" ≠ "" := by decide
  ⟨h, selected_excerpt_passes_toc_checks "financial aid\naa\nbb\ncc"
      "scholarship" h⟩

set_option maxRecDepth 1000000 in
/-- Counterexample to C5 as stated: in `tocOnlyDoc` the only refund-topic
phrase occurrence (`refunds of tuition`) sits inside the dot-leader line
`Refunds of Tuition and Residence Hall Charges ........ 42` of a synthetic
table of contents written with contiguous dots, yet the selector returns
that window (the whole document) as the excerpt — both at the
`extractQueryRelevantContent` level and after `buildEnhancedContext`'s
500-character fallback check — instead of rejecting it. -/
theorem contiguous_dot_toc_window_is_selected :
    AIService.extractQueryRelevantContent tocOnlyDoc "refund" = tocOnlyDoc ∧
    AIService.docRelevantContent tocOnlyDoc "refund" = tocOnlyDoc ∧
    includes tocOnlyDoc
      "Refunds of Tuition and Residence Hall Charges ........ 42" = true := by
  refine ⟨by decide, by decide, by decide⟩

/-! ## C9: derived metadata -/

theorem countsLookup_cons (k' : String) (n : Nat) (rest : List (String × Nat))
    (k : String) :
    countsLookup ((k', n) :: rest) k
      = if k' = k then some n else countsLookup rest k := by
  unfold countsLookup
  by_cases h : k' = k
  · rw [if_pos h, List.find?_cons_of_pos _ (by simpa using h)]
    rfl
  · rw [if_neg h, List.find?_cons_of_neg _ (by simpa using h)]

theorem countsLookup_bumpCount_self (w : String) :
    ∀ (l : List (String × Nat)),
      countsLookup (DocumentProcessor.bumpCount l w) w
        = some ((countsLookup l w).getD 0 + 1)
  | [] => by
    show countsLookup [(w, 1)] w = _
    rw [countsLookup_cons, if_pos rfl]
    rfl
  | (k, n) :: rest => by
    unfold DocumentProcessor.bumpCount
    by_cases h : k = w
    · rw [if_pos (by simpa using h), countsLookup_cons, if_pos h,
        countsLookup_cons, if_pos h]
      rfl
    · rw [if_neg (by simpa using h), countsLookup_cons, if_neg h,
        countsLookup_cons, if_neg h]
      exact countsLookup_bumpCount_self w rest

theorem countsLookup_bumpCount_other (w k : String) (hk : k ≠ w) :
    ∀ (l : List (String × Nat)),
      countsLookup (DocumentProcessor.bumpCount l w) k = countsLookup l k
  | [] => by
    show countsLookup [(w, 1)] k = _
    rw [countsLookup_cons, if_neg (fun h => hk h.symm)]
  | (k', n) :: rest => by
    unfold DocumentProcessor.bumpCount
    by_cases h : k' = w
    · have hne : ¬(k' = k) := fun hh => hk (by rw [← hh]; exact h)
      rw [if_pos (by simpa using h), countsLookup_cons, if_neg hne,
        countsLookup_cons, if_neg hne]
    · rw [if_neg (by simpa using h), countsLookup_cons, countsLookup_cons,
        countsLookup_bumpCount_other w k hk rest]

theorem bumpCount_keys (w : String) :
    ∀ (l : List (String × Nat)),
      (DocumentProcessor.bumpCount l w).map Prod.fst
        = if w ∈ l.map Prod.fst then l.map Prod.fst
          else l.map Prod.fst ++ [w]
  | [] => by simp [DocumentProcessor.bumpCount]
  | (k, n) :: rest => by
    unfold DocumentProcessor.bumpCount
    by_cases h : k = w
    · rw [if_pos (by simpa using h)]
      subst h
      simp
    · rw [if_neg (by simpa using h)]
      simp only [List.map_cons, bumpCount_keys w rest, List.mem_cons]
      by_cases hw : w ∈ rest.map Prod.fst
      · rw [if_pos hw, if_pos (Or.inr hw)]
      · rw [if_neg hw, if_neg (by rintro (h' | h') <;> [exact h h'.symm; exact hw h']),
          List.cons_append]

theorem bumpCount_nodupKeys (w : String) (l : List (String × Nat))
    (h : (l.map Prod.fst).Nodup) :
    ((DocumentProcessor.bumpCount l w).map Prod.fst).Nodup := by
  rw [bumpCount_keys]
  by_cases hw : w ∈ l.map Prod.fst
  · rwa [if_pos hw]
  · rw [if_neg hw]
    simp [List.nodup_append, h, hw]

theorem countsLookup_of_mem :
    ∀ (l : List (String × Nat)) (k : String) (n : Nat),
      (l.map Prod.fst).Nodup → (k, n) ∈ l → countsLookup l k = some n
  | [], _, _, _, hmem => absurd hmem (List.not_mem_nil _)
  | (k', n') :: rest, k, n, hnodup, hmem => by
    simp only [List.map_cons, List.nodup_cons] at hnodup
    rw [countsLookup_cons]
    rcases List.mem_cons.mp hmem with heq | hmem'
    · rw [Prod.mk.injEq] at heq
      rw [if_pos heq.1.symm]
      rw [heq.2]
    · rw [if_neg ?_]
      · exact countsLookup_of_mem rest k n hnodup.2 hmem'
      · intro h
        subst h
        exact hnodup.1 (List.mem_map_of_mem Prod.fst hmem')

theorem countsFold_nodupKeys (ws : List String) :
    ((ws.foldl DocumentProcessor.bumpCount []).map Prod.fst).Nodup := by
  induction ws using List.reverseRecOn with
  | nil => simp
  | append_singleton xs x ih =>
    rw [List.foldl_append]
    exact bumpCount_nodupKeys x _ ih

theorem countsFold_lookup (ws : List String) (k : String) :
    countsLookup (ws.foldl DocumentProcessor.bumpCount []) k
      = if ws.count k = 0 then none else some (ws.count k) := by
  induction ws using List.reverseRecOn with
  | nil => simp [countsLookup]
  | append_singleton xs x ih =>
    rw [List.foldl_append, List.foldl_cons, List.foldl_nil]
    by_cases h : k = x
    · subst h
      rw [countsLookup_bumpCount_self k _, ih]
      have hc : (xs ++ [k]).count k = xs.count k + 1 := by
        rw [List.count_append]
        simp
      rw [hc]
      by_cases h0 : xs.count k = 0
      · simp [h0]
      · simp [h0]
    · rw [countsLookup_bumpCount_other x k h, ih]
      rw [List.count_append]
      simp [List.count_cons, h]

theorem extractKeywords_take_entry (content : String) (e : String × Nat)
    (he : e ∈ (List.insertionSort (fun a b => b.2 ≤ a.2)
      (((DocumentProcessor.keywordWords content).foldl
        DocumentProcessor.bumpCount []).filter fun x => x.2 ≥ 3)).take 10) :
    e.2 = (DocumentProcessor.keywordWords content).count e.1 ∧
    3 ≤ e.2 ∧ e.1 ∈ DocumentProcessor.keywordWords content ∧
    3 < e.1.length ∧ e.1.length < 20 := by
  have hsorted := List.mem_of_mem_take he
  have hfiltered := (List.perm_insertionSort
    (fun a b : String × Nat => b.2 ≤ a.2) _).mem_iff.mp hsorted
  obtain ⟨hfold, hge⟩ := List.mem_filter.mp hfiltered
  have hge' : 3 ≤ e.2 := by simpa using hge
  have hlk : countsLookup ((DocumentProcessor.keywordWords content).foldl
      DocumentProcessor.bumpCount []) e.1 = some e.2 :=
    countsLookup_of_mem _ e.1 e.2
      (countsFold_nodupKeys (DocumentProcessor.keywordWords content))
      (by simpa using hfold)
  rw [countsFold_lookup] at hlk
  by_cases h0 : (DocumentProcessor.keywordWords content).count e.1 = 0
  · rw [if_pos h0] at hlk
    cases hlk
  · rw [if_neg h0] at hlk
    rw [Option.some.injEq] at hlk
    have hmem : e.1 ∈ DocumentProcessor.keywordWords content :=
      List.count_pos_iff_mem.mp (Nat.pos_of_ne_zero h0)
    have hlen := List.mem_filter.mp hmem
    have hlen' : 3 < e.1.length ∧ e.1.length < 20 := by
      have := hlen.2
      simp only [Bool.and_eq_true, decide_eq_true_eq] at this
      exact this
    exact ⟨hlk.symm, hge', hmem, hlen'.1, hlen'.2⟩

/-- C9: the derived metadata's title is the trimmed first non-blank line
when that is under 100 characters and otherwise the normalized filename
(base name, extension stripped, `-`/`_` replaced by spaces); and the
keywords are at most 10 of the case-folded, punctuation-stripped words of
the text (the `keywordWords`), each between 4 and 20 characters long and
occurring at least 3 times, ordered by non-increasing frequency. -/
theorem extractMetadata_title_and_keyword_spec (filePath content : String) :
    ((DocumentProcessor.extractMetadata filePath content).title =
      some (match (splitOn '\n' content).find? (fun line => trim line != "") with
            | some line =>
              if (trim line).length < 100 then trim line
              else DocumentProcessor.normalizedFilename filePath
            | none => DocumentProcessor.normalizedFilename filePath)) ∧
    ∃ ks, (DocumentProcessor.extractMetadata filePath content).keywords = some ks ∧
      ks.length ≤ 10 ∧
      (∀ w ∈ ks, w ∈ DocumentProcessor.keywordWords content ∧
        4 ≤ w.length ∧ w.length ≤ 20 ∧
        3 ≤ (DocumentProcessor.keywordWords content).count w) ∧
      ks.Pairwise (fun a b => (DocumentProcessor.keywordWords content).count b
        ≤ (DocumentProcessor.keywordWords content).count a) := by
  constructor
  · unfold DocumentProcessor.extractMetadata
    dsimp only
    rw [List.filter_head?]
    cases hfind : (splitOn '\n' content).find? (fun line => trim line != "") with
    | none => rfl
    | some line => rfl
  · refine ⟨DocumentProcessor.extractKeywords content, rfl, ?_, ?_, ?_⟩
    · unfold DocumentProcessor.extractKeywords
      rw [List.length_map, List.length_take]
      exact min_le_left 10 _
    · intro w hw
      unfold DocumentProcessor.extractKeywords at hw
      obtain ⟨e, he, rfl⟩ := List.mem_map.mp hw
      obtain ⟨hcnt, hge, hmem, hl1, hl2⟩ := extractKeywords_take_entry content e he
      exact ⟨hmem, by omega, by omega, hcnt ▸ hge⟩
    · haveI hTot : IsTotal (String × Nat) (fun a b => b.2 ≤ a.2) :=
        ⟨fun a b => Nat.le_total b.2 a.2⟩
      haveI hTrans : IsTrans (String × Nat) (fun a b => b.2 ≤ a.2) :=
        ⟨fun a b c hab hbc => Nat.le_trans hbc hab⟩
      unfold DocumentProcessor.extractKeywords
      rw [List.pairwise_map]
      have hsorted : List.Pairwise (fun a b : String × Nat => b.2 ≤ a.2)
          (List.insertionSort (fun a b => b.2 ≤ a.2)
            (((DocumentProcessor.keywordWords content).foldl
              DocumentProcessor.bumpCount []).filter fun x => x.2 ≥ 3)) :=
        List.sorted_insertionSort _ _
      have htake := hsorted.sublist (List.take_sublist 10 _)
      refine htake.imp_of_mem ?_
      intro a b ha hb hr
      obtain ⟨hca, _, _, _, _⟩ := extractKeywords_take_entry content a ha
      obtain ⟨hcb, _, _, _, _⟩ := extractKeywords_take_entry content b hb
      rw [← hca, ← hcb]
      exact hr

/-- Witness for C9 at a concrete file and content: the word `campus`
occurs four times and `dining` three times, so both are keywords in
frequency order, and the title is the first line. -/
theorem extractMetadata_witness :
    ((DocumentProcessor.extractMetadata "/r/campus-guide.txt"
        "Campus Guide\ncampus dining campus dining\ncampus dining campus").title =
      some (match (splitOn '\n'
            "Campus Guide\ncampus dining campus dining\ncampus dining campus").find?
            (fun line => trim line != "") with
            | some line =>
              if (trim line).length < 100 then trim line
              else DocumentProcessor.normalizedFilename "/r/campus-guide.txt"
            | none => DocumentProcessor.normalizedFilename "/r/campus-guide.txt")) ∧
    ∃ ks, (DocumentProcessor.extractMetadata "/r/campus-guide.txt"
        "Campus Guide\ncampus dining campus dining\ncampus dining campus").keywords
        = some ks ∧
      ks.length ≤ 10 ∧
      (∀ w ∈ ks, w ∈ DocumentProcessor.keywordWords
          "Campus Guide\ncampus dining campus dining\ncampus dining campus" ∧
        4 ≤ w.length ∧ w.length ≤ 20 ∧
        3 ≤ (DocumentProcessor.keywordWords
          "Campus Guide\ncampus dining campus dining\ncampus dining campus").count w) ∧
      ks.Pairwise (fun a b => (DocumentProcessor.keywordWords
          "Campus Guide\ncampus dining campus dining\ncampus dining campus").count b
        ≤ (DocumentProcessor.keywordWords
          "Campus Guide\ncampus dining campus dining\ncampus dining campus").count a) :=
  extractMetadata_title_and_keyword_spec "/r/campus-guide.txt"
    "Campus Guide\ncampus dining campus dining\ncampus dining campus"

end StudentSupport
